import Mathlib

/-!
Verification development for the PayTrack ledger core
(`bot/database_manager.py`, `bot/undo_helpers.py`, `bot/customer_service.py`,
`bot/helpers.py` and the command layer in `bot/handlers.py`).

Shallow embedding conventions:
* SQLite `REAL` amounts/balances are modelled as `Rat` (exact arithmetic
  stand-in for the numeric algebra the claims are about).
* `TEXT` timestamps (`created_at`, ISO strings that compare
  chronologically) are modelled as `Int`, in units of days.
* `TEXT` names/phones are modelled as `List Char`; lowercasing uses
  `Char.toLower`, which matches SQLite's ASCII-only `NOCASE` folding and
  the ASCII fragment of Python's `str.lower()`.
* Tables are lists in rowid order; `INTEGER PRIMARY KEY AUTOINCREMENT`
  columns are modelled by monotone counters in the store, and the plain
  `INTEGER PRIMARY KEY` of `transactions` by SQLite's max-rowid-plus-one
  rule.
* A raised exception rolls the active unit of work back, so failing
  operations return an error and the caller keeps its pre-call state.
  The undo coordinator is modelled with an explicit committed state
  because some callees issue their own `commit` mid-flight.
-/

namespace PayTrack

/-- `bot/types.py` `TransactionType` (the two legal `type` column values). -/
inductive TxType
  | sale
  | payment
deriving DecidableEq, Repr

/-- `bot/types.py` `ActionType` (the five action-log kinds). -/
inductive ActionKind
  | add_customer
  | delete_customer
  | rename_customer
  | change_phone
  | add_transaction
deriving DecidableEq, Repr

/-- Error outcomes of the store layer and command layer.
`duplicateName`, `invalidKind`, `nothingToUndo`, `notRestored` are the
`AppError` branches of `database_manager.py`; `invalidAmount`,
`invalidName`, `invalidPhone` are command-layer validation rejections;
`unexpected` is any re-raised plain `Exception`. -/
inductive Err
  | duplicateName
  | invalidKind
  | invalidAmount
  | invalidName
  | invalidPhone
  | nothingToUndo
  | notRestored
  | unexpected
deriving DecidableEq, Repr

/-- A row of the `customers` table (`init_database`, lines 36-45). -/
structure Customer where
  id : Nat
  fullname : List Char
  phone : Option (List Char)
  admin_id : Nat
  balance : Rat
  created_at : Int
deriving DecidableEq, Repr

/-- A row of the `transactions` table (`init_database`, lines 46-56). -/
structure Transaction where
  id : Nat
  amount : Rat
  type_ : TxType
  customer_id : Nat
  admin_id : Nat
  description : String
  created_at : Int
deriving DecidableEq, Repr

/-- The `undo-args` JSON object stored by `delete_customer`
(lines 249-268): the columns of `get_customer_by_id`'s SELECT plus the
saved transaction list.  Note there is no `admin_id` field: the SELECT in
`get_customer_by_id` does not return it. -/
structure DeleteUndoArgs where
  customer_id : Nat
  fullname : List Char
  phone : Option (List Char)
  balance : Rat
  created_at : Int
  customer_transactions : List Transaction
deriving DecidableEq, Repr

/-- The `payload` JSON blob of an `action_logs` row, one shape per action
kind, as built by the corresponding mutation in `database_manager.py`. -/
inductive Payload
  | addCustomerP (customer_id : Nat) (admin_id : Nat)
  | deleteCustomerP (args : DeleteUndoArgs)
  | renameCustomerP (admin_id : Nat) (customer_id : Nat)
      (new_name : List Char) (old_name : List Char)
  | changePhoneP (admin_id : Nat) (customer_id : Nat)
      (new_phone : Option (List Char)) (old_phone : Option (List Char))
  | addTransactionP (customer_id : Nat) (admin_id : Nat) (transaction_id : Nat)
deriving DecidableEq, Repr

/-- A row of the `action_logs` table (`init_database`, lines 57-68). -/
structure ActionLog where
  id : Nat
  admin_id : Nat
  customer_id : Nat
  action_type : ActionKind
  payload : Payload
  created_at : Int
deriving DecidableEq, Repr

/-- The persistent store: the four tables of `init_database`, the
AUTOINCREMENT counters of `customers` and `action_logs`, and the clock
used for `CURRENT_TIMESTAMP`. -/
structure Store where
  customers : List Customer
  transactions : List Transaction
  action_logs : List ActionLog
  archive : List ActionLog
  next_customer_id : Nat
  next_log_id : Nat
  now : Int
deriving DecidableEq, Repr

/-! ## Character and name helpers (`bot/helpers.py`) -/

/-- Strip leading whitespace. -/
def lTrim (s : List Char) : List Char := s.dropWhile (·.isWhitespace)

/-- Python `str.strip()`: drop leading and trailing whitespace. -/
def trimWs (s : List Char) : List Char := ((lTrim s).reverse.dropWhile (·.isWhitespace)).reverse

/-- `helpers.normalize_name`: `name.strip().lower()`. -/
def normalizeName (s : List Char) : List Char := (trimWs s).map Char.toLower

/-- Split into maximal whitespace-free runs, accumulator holds the
current run reversed.  This is `re.split(r"\s+", s)` on strings without
leading/trailing whitespace. -/
def wsTokensAux : List Char → List Char → List (List Char)
  | acc, [] => if acc.isEmpty then [] else [acc.reverse]
  | acc, c :: cs =>
    if c.isWhitespace then
      if acc.isEmpty then wsTokensAux [] cs else acc.reverse :: wsTokensAux [] cs
    else wsTokensAux (c :: acc) cs

def wsTokens (s : List Char) : List (List Char) := wsTokensAux [] s

/-- Python `re.split(r"\s+", s)` for an already-stripped `s`: the empty
string yields `['']`, otherwise the whitespace-separated tokens. -/
def pySplitWs (s : List Char) : List (List Char) :=
  if s.isEmpty then [[]] else wsTokens s

/-- `' '.join(parts)`. -/
def joinSpace : List (List Char) → List Char
  | [] => []
  | [t] => t
  | t :: ts => t ++ ' ' :: joinSpace ts

/-- `helpers.normalize_fullname` (lines 24-34): split the normalized name
on whitespace runs; fewer than two parts gives `""`; otherwise rebuild
`f"{first} {middle + ' ' if middle else ''}{last}"` from re-normalized
parts. -/
def normalizeFullname (name : List Char) : List Char :=
  let parts := pySplitWs (normalizeName name)
  if parts.length < 2 then []
  else
    match parts with
    | [] => []
    | first0 :: rest =>
      match rest.getLast? with
      | none => []
      | some last0 =>
        let first := normalizeName first0
        let lastN := normalizeName last0
        let middle := joinSpace ((rest.dropLast).map normalizeName)
        first ++ ' ' :: ((if middle.length > 0 then middle ++ [' '] else []) ++ lastN)

/-- The spec's description of the stored name: the input lowercased,
stripped, with internal whitespace runs collapsed to single spaces. -/
def specCollapsedName (name : List Char) : List Char :=
  joinSpace (wsTokens (normalizeName name))

/-- `helpers.normalize_phone`: keep digits only. -/
def normalizePhone (s : List Char) : List Char := s.filter (·.isDigit)

/-- First-name characters of `DEFAULT_NAME_PATTERN`: `[A-Za-z\-\']`. -/
def isFirstNameChar (c : Char) : Bool := c.isAlpha || c == '-' || c == '\''

/-- `helpers.is_valid_name` with `DEFAULT_NAME_PATTERN`
`^[A-Za-z\-\']{2,20}(\s[A-Za-z]{1,20}){0,3}\s[A-Za-z]{2,20}$` plus
`len(name) > 1`, phrased over the whitespace-separated tokens (its
arguments are always single-space normalized names). -/
def isValidName (name : List Char) : Bool :=
  (match wsTokens name with
   | [] => false
   | first :: rest =>
     match rest.getLast? with
     | none => false
     | some lastTok =>
       let middles := rest.dropLast
       (decide (2 ≤ first.length) && decide (first.length ≤ 20) && first.all isFirstNameChar) &&
       (decide (middles.length ≤ 3) &&
        middles.all (fun t => decide (1 ≤ t.length) && decide (t.length ≤ 20) && t.all (·.isAlpha))) &&
       (decide (2 ≤ lastTok.length) && decide (lastTok.length ≤ 20) && lastTok.all (·.isAlpha)))
  && decide (1 < name.length)

/-- `helpers.is_valid_phone` with `DEFAULT_PHONE_PATTERN`
`^\+?\(?\d{2,4}\)?[\s.-]?\d{3,4}[\s.-]?\d{3,4}$` restricted to its
digits-only inputs (`normalize_phone` runs first): a full match exists
exactly when the string is 8 to 12 digits. -/
def isValidPhone (s : List Char) : Bool :=
  s.all (·.isDigit) && decide (8 ≤ s.length) && decide (s.length ≤ 12)

/-- SQLite `COLLATE NOCASE` equality: ASCII-case-insensitive. -/
def nocaseEq (a b : List Char) : Bool := a.map Char.toLower == b.map Char.toLower

/-- The string `'sale'` as stored in the `type` column. -/
def saleStr : List Char := ['s', 'a', 'l', 'e']

/-- The string `'payment'` as stored in the `type` column. -/
def paymentStr : List Char := ['p', 'a', 'y', 'm', 'e', 'n', 't']

/-! ## Store lookup helpers -/

/-- `get_customer_by_id` / SQL `WHERE id = ? AND admin_id = ?`. -/
def findCustomer (cid admin : Nat) (s : Store) : Option Customer :=
  s.customers.find? (fun c => c.id == cid && c.admin_id == admin)

/-- `_update_balance`'s SQL `WHERE id = ?` (no admin scope). -/
def findCustomerById (cid : Nat) (s : Store) : Option Customer :=
  s.customers.find? (fun c => c.id == cid)

/-- `_get_customer_transactions`: `WHERE customer_id = ? AND admin_id = ?`. -/
def customerTransactionsOf (cid admin : Nat) (s : Store) : List Transaction :=
  s.transactions.filter (fun t => t.customer_id == cid && t.admin_id == admin)

/-- Largest transaction rowid (0 when the table is empty). -/
def maxTxnId (s : Store) : Nat := s.transactions.foldr (fun t m => max t.id m) 0

/-- SQLite's rowid choice for `INSERT INTO transactions` without an
explicit id (`transactions.id` is a plain `INTEGER PRIMARY KEY`). -/
def nextTransactionId (s : Store) : Nat := maxTxnId s + 1

/-- The `action_logs` rows of one admin, in rowid order. -/
def logsFor (admin : Nat) (s : Store) : List ActionLog :=
  s.action_logs.filter (fun l => l.admin_id == admin)

/-- One step of scanning for the largest-id log row. -/
def maxIdStep (acc : Option ActionLog) (l : ActionLog) : Option ActionLog :=
  match acc with
  | none => some l
  | some m => if m.id < l.id then some l else some m

/-- `_fetch_last_log`: `WHERE admin_id = ? ORDER BY id DESC LIMIT 1`,
i.e. the admin's log row with the largest id. -/
def lastLogFor (admin : Nat) (s : Store) : Option ActionLog :=
  (logsFor admin s).foldl maxIdStep none

/-- Store well-formedness: facts SQLite maintains for every reachable
database (AUTOINCREMENT ids stay below the sequence counter; primary-key
ids are distinct). -/
def WFStore (s : Store) : Prop :=
  (∀ l ∈ s.action_logs, l.id < s.next_log_id) ∧
  (s.customers.map (·.id)).Nodup

instance (s : Store) : Decidable (WFStore s) := by
  unfold WFStore; infer_instance

/-! ## Store mutations (`database_manager.py`) -/

/-- `add_action_log` (lines 544-573): append a row with the next
AUTOINCREMENT id. -/
def addActionLog (k : ActionKind) (cid admin : Nat) (p : Payload) (s : Store) : Store :=
  { s with
    action_logs := s.action_logs ++ [⟨s.next_log_id, admin, cid, k, p, s.now⟩],
    next_log_id := s.next_log_id + 1 }

/-- `add_customer` (lines 112-158): INSERT with the fullname's global
`UNIQUE ... COLLATE NOCASE` constraint; an `IntegrityError` becomes the
`AppError` "Customer named ... already exists" (`duplicateName`); on
success optionally log an `add_customer` action.  Returns the new id. -/
def addCustomerDb (withLogging : Bool) (fullname : List Char) (phone : Option (List Char))
    (admin : Nat) (s : Store) : Except Err (Nat × Store) :=
  if s.customers.any (fun c => nocaseEq c.fullname fullname) then
    .error .duplicateName
  else
    let cid := s.next_customer_id
    let s1 : Store :=
      { s with
        customers := s.customers ++ [⟨cid, fullname, phone, admin, 0, s.now⟩],
        next_customer_id := cid + 1 }
    let s2 := if withLogging then addActionLog .add_customer cid admin (.addCustomerP cid admin) s1 else s1
    .ok (cid, s2)

/-- `delete_customer` (lines 244-293).  With logging, the customer row
and its (admin-scoped) transactions are snapshotted into a
`delete_customer` log payload; a missing customer makes
`undo_args.update(customer)` raise (`unexpected`).  The DELETE removes
the row and, through `ON DELETE CASCADE`, every transaction of that
customer; `RETURNING *` on a missing row makes `dict(None)` raise. -/
def deleteCustomerDb (withLogging : Bool) (cid admin : Nat) (s : Store) :
    Except Err (Customer × Store) :=
  let step1 : Except Err Store :=
    if withLogging then
      match findCustomer cid admin s with
      | none => .error .unexpected
      | some c =>
        .ok (addActionLog .delete_customer cid admin
          (.deleteCustomerP ⟨c.id, c.fullname, c.phone, c.balance, c.created_at,
            customerTransactionsOf cid admin s⟩) s)
    else .ok s
  match step1 with
  | .error e => .error e
  | .ok s1 =>
    match findCustomer cid admin s1 with
    | none => .error .unexpected
    | some c =>
      .ok (c,
        { s1 with
          customers := s1.customers.filter (fun d => !(d.id == cid && d.admin_id == admin)),
          transactions := s1.transactions.filter (fun t => !(t.customer_id == cid)) })

/-- `update_customer_name` (lines 295-349).  A missing customer makes
`customer['fullname']` raise; renaming onto another row's name (ASCII
case-insensitively, any admin — the constraint is global) raises
`IntegrityError` → `AppError` (`duplicateName`).  On success the UPDATE
is applied and the method issues its own `commit` (modelled at the undo
coordinator). -/
def updateCustomerNameDb (withLogging : Bool) (newName : List Char) (cid admin : Nat)
    (s : Store) : Except Err (Rat × Store) :=
  match findCustomer cid admin s with
  | none => .error .unexpected
  | some old =>
    if s.customers.any (fun c => !(c.id == cid) && nocaseEq c.fullname newName) then
      .error .duplicateName
    else
      let s1 := if withLogging then
          addActionLog .rename_customer cid admin (.renameCustomerP admin cid newName old.fullname) s
        else s
      .ok (old.balance,
        { s1 with
          customers := s1.customers.map (fun c =>
            if c.id == cid && c.admin_id == admin then { c with fullname := newName } else c) })

/-- `update_customer_phone` (lines 351-400): like the rename but without
a uniqueness constraint; also issues its own `commit` on success. -/
def updateCustomerPhoneDb (withLogging : Bool) (newPhone : Option (List Char)) (cid admin : Nat)
    (s : Store) : Except Err Store :=
  match findCustomer cid admin s with
  | none => .error .unexpected
  | some old =>
    let s1 := if withLogging then
        addActionLog .change_phone cid admin (.changePhoneP admin cid newPhone old.phone) s
      else s
    .ok { s1 with
          customers := s1.customers.map (fun c =>
            if c.id == cid && c.admin_id == admin then { c with phone := newPhone } else c) }

/-- `_update_balance` (lines 512-539): `payment` has sign `+1`, `sale`
sign `-1`, anything else is the `AppError` 'invalid transaction type.';
the delta applied to the balance is `sign * abs(amount)`.  The UPDATE is
keyed on `id` alone; a missing customer makes `dict(None)` raise. -/
def updateBalance (amount : Rat) (type_ : List Char) (cid : Nat) (s : Store) :
    Except Err (Rat × Store) :=
  match (if type_ == paymentStr then some (1 : Rat)
         else if type_ == saleStr then some (-1) else none) with
  | none => .error .invalidKind
  | some sign =>
    match findCustomerById cid s with
    | none => .error .unexpected
    | some c =>
      let delta := sign * |amount|
      .ok (c.balance + delta,
        { s with
          customers := s.customers.map (fun d =>
            if d.id == cid then { d with balance := d.balance + delta } else d) })

/-- `add_transaction` (lines 429-488): reject a `type_` outside
`('sale', 'payment')` with the `AppError` 'Invalid transaction type',
then apply `_update_balance`, INSERT the row with the raw signed amount,
and optionally log an `add_transaction` action.  Returns the new
transaction id. -/
def addTransactionDb (withLogging : Bool) (amount : Rat) (type_ : List Char)
    (descr : String) (cid admin : Nat) (s : Store) : Except Err (Nat × Store) :=
  if !(type_ == saleStr || type_ == paymentStr) then .error .invalidKind
  else
    match updateBalance amount type_ cid s with
    | .error e => .error e
    | .ok (_, s1) =>
      let tid := nextTransactionId s1
      let tt : TxType := if type_ == paymentStr then .payment else .sale
      let s2 : Store :=
        { s1 with transactions := s1.transactions ++ [⟨tid, amount, tt, cid, admin, descr, s1.now⟩] }
      let s3 := if withLogging then
          addActionLog .add_transaction cid admin (.addTransactionP cid admin tid) s2
        else s2
      .ok (tid, s3)

/-- `_restore_transactions` (lines 490-495): bulk INSERT with explicit
ids. -/
def restoreTransactionsDb (ts : List Transaction) (s : Store) : Store :=
  { s with transactions := s.transactions ++ ts }

/-- `_delete_transaction_with_id` (lines 497-510): DELETE by id with
`RETURNING *`; a missing row makes `dict(None)` raise. -/
def deleteTransactionWithId (tid : Nat) (s : Store) : Except Err (Transaction × Store) :=
  match s.transactions.find? (fun t => t.id == tid) with
  | none => .error .unexpected
  | some t => .ok (t, { s with transactions := s.transactions.filter (fun u => !(u.id == tid)) })

/-- `undo_add_transaction` (lines 639-656): delete the row, then apply
the opposite kind's delta to the balance; any failure is re-raised as a
plain `Exception` (`unexpected`). -/
def undoAddTransactionDb (tid : Nat) (s : Store) : Except Err Store :=
  match deleteTransactionWithId tid s with
  | .error _ => .error .unexpected
  | .ok (t, s1) =>
    let flipped := if t.type_ == TxType.sale then paymentStr else saleStr
    match updateBalance t.amount flipped t.customer_id s1 with
    | .error _ => .error .unexpected
    | .ok (_, s2) => .ok s2

/-- `undo_add_customer` (lines 621-629): `delete_customer(...,
with_commit=True, with_logging=False)` — note the mid-undo commit. -/
def undoAddCustomerDb (cid admin : Nat) (s : Store) : Except Err (Customer × Store) :=
  deleteCustomerDb false cid admin s

/-- `undo_delete_customer` (lines 595-619) called with a complete
argument set: re-insert the customer (unlogged, uncommitted), UPDATE it
back to its original id/created_at/balance, bulk-restore the saved
transactions.  `cursor.rowcount` of an `UPDATE ... RETURNING` statement
is 0 before its rows are fetched (sqlite3 driver behaviour), so
`is_restored = cursor.rowcount == 0` is true here and the AppError
branch does not fire. -/
def undoDeleteCustomerDb (cid admin : Nat) (phone : Option (List Char)) (fullname : List Char)
    (created_at : Int) (balance : Rat) (txns : List Transaction) (s : Store) :
    Except Err (Customer × Store) :=
  match addCustomerDb false fullname phone admin s with
  | .error e => .error e
  | .ok (tempId, s1) =>
    let s2 : Store :=
      { s1 with
        customers := s1.customers.map (fun c =>
          if c.id == tempId then { c with id := cid, created_at := created_at, balance := balance } else c) }
    let s3 := restoreTransactionsDb txns s2
    match findCustomerById cid s3 with
    | none => .error .unexpected
    | some c => .ok (c, s3)

/-- `clear_old_logs` (lines 575-590): copy the rows older than 30 days
into `action_logs_archive`, then delete them from `action_logs`, as one
unit of work using the current clock. -/
def clearOldLogs (s : Store) : Store :=
  let cutoff := s.now - 30
  { s with
    archive := s.archive ++ s.action_logs.filter (fun l => decide (l.created_at < cutoff)),
    action_logs := s.action_logs.filter (fun l => !decide (l.created_at < cutoff)) }

/-! ## Undo coordinator (`undo_last_action_for_admin` + `bot/undo_helpers.py`)

`execute_undo` dispatches on the action kind.  The result pairs the
callee's outcome with the committed state after the call: `delete_customer`
inside `undo_add_customer` runs `with_commit=True`, and
`update_customer_name` / `update_customer_phone` always commit, so their
successes move the committed state mid-undo; `undo_add_transaction` does
not commit. -/

def executeUndo (log : ActionLog) (s : Store) : Except Err Store × Store :=
  match log.payload with
  | .addCustomerP cid admin =>
    match undoAddCustomerDb cid admin s with
    | .error e => (.error e, s)
    | .ok (_, s1) => (.ok s1, s1)
  | .deleteCustomerP _ =>
    -- `execute_undo` calls `db.undo_delete_customer(**undo_args)`, but the
    -- stored undo-args carry no `admin_id` while the method requires one:
    -- the keyword expansion raises `TypeError` before touching the store.
    (.error .unexpected, s)
  | .renameCustomerP admin cid _ old_name =>
    match updateCustomerNameDb false old_name cid admin s with
    | .error e => (.error e, s)
    | .ok (_, s1) => (.ok s1, s1)
  | .changePhoneP admin cid _ old_phone =>
    match updateCustomerPhoneDb false old_phone cid admin s with
    | .error e => (.error e, s)
    | .ok s1 => (.ok s1, s1)
  | .addTransactionP _ _ tid =>
    match undoAddTransactionDb tid s with
    | .error e => (.error e, s)
    | .ok s1 => (.ok s1, s)

/-- `undo_last_action_for_admin` (lines 669-698): fetch the most recent
log row (none → `AppError` "no action avaeilable to be undone"), run the
inverse, DELETE the log row — a delete affecting zero rows is treated as
failure — then commit.  Any exception rolls back to the last committed
state.  `failLogDelete` injects the zero-rows outcome at the log-delete
step (the failure mode the code checks for); the second component of the
result is the observable (committed) state after the call. -/
def undoLastActionForAdmin (admin : Nat) (failLogDelete : Bool) (s : Store) :
    Except Err Unit × Store :=
  match lastLogFor admin s with
  | none => (.error .nothingToUndo, s)
  | some log =>
    match executeUndo log s with
    | (.error e, committed) => (.error e, committed)
    | (.ok pending, committed) =>
      let rowcount := pending.action_logs.countP (fun l => l.id == log.id)
      if failLogDelete || rowcount == 0 then
        (.error .unexpected, committed)
      else
        (.ok (), { pending with action_logs := pending.action_logs.filter (fun l => !(l.id == log.id)) })

/-! ## Command/validation layer -/

/-- The `/addtransaction` pipeline of `handlers.add_transaction`
(lines 226-270): normalize the kind (`strip().lower()`), reject a kind
outside `('sale', 'payment')`, reject `amount <= 0`, then call the store
(whose failures surface as the generic "try again later", `unexpected`).
Validation happens before any store call; on error the state is
returned unchanged. -/
def ledgerAddTransaction (amount : Rat) (rawKind : List Char) (descr : String)
    (cid admin : Nat) (s : Store) : Except Err Nat × Store :=
  let type_ := normalizeName rawKind
  if !(type_ == saleStr || type_ == paymentStr) then (.error .invalidKind, s)
  else if amount ≤ 0 then (.error .invalidAmount, s)
  else
    match addTransactionDb true amount type_ descr cid admin s with
    | .error _ => (.error .unexpected, s)
    | .ok (tid, s1) => (.ok tid, s1)

/-- `customer_service.add_customer` (lines 27-61): normalize the name and
phone, validate both before any store call, then insert; `AppError`
surfaces as its message (`duplicateName`), anything else as the generic
failure. -/
def svcAddCustomer (rawName rawPhone : List Char) (admin : Nat) (s : Store) :
    Except Err Nat × Store :=
  let fullname := normalizeFullname rawName
  let phone := normalizePhone rawPhone
  if !(isValidName fullname) then (.error .invalidName, s)
  else if !(isValidPhone phone) then (.error .invalidPhone, s)
  else
    match addCustomerDb true fullname (some phone) admin s with
    | .error .duplicateName => (.error .duplicateName, s)
    | .error _ => (.error .unexpected, s)
    | .ok (cid, s1) => (.ok cid, s1)

/-! ## Pagination (`fetch_balances_page`, lines 716-800)

The source's `mode_cfg` table fixes, per report view, the balance
filter, the `(balance, id)` sort order and the composite-cursor
comparison.  The source formats `next_cursor` as the text
`f"{balance}, {id}"` of the last item; the embedding keeps the encoded
`(balance, id)` pair. -/

inductive ReportView
  | due_customers
  | overpaid_customers
deriving DecidableEq, Repr

/-- `WHERE ... AND balance < 0` (due) resp. `balance > 0` (overpaid). -/
def modeBalanceFilter (mode : ReportView) (c : Customer) : Bool :=
  match mode with
  | .due_customers => decide (c.balance < 0)
  | .overpaid_customers => decide (0 < c.balance)

/-- `ORDER BY balance ASC, id ASC` for due customers. -/
def leDue (c d : Customer) : Prop :=
  c.balance < d.balance ∨ (c.balance = d.balance ∧ c.id ≤ d.id)

instance : DecidableRel leDue := fun _ _ => by unfold leDue; infer_instance

/-- `ORDER BY balance DESC, id ASC` for overpaid customers. -/
def leOver (c d : Customer) : Prop :=
  d.balance < c.balance ∨ (c.balance = d.balance ∧ c.id ≤ d.id)

instance : DecidableRel leOver := fun _ _ => by unfold leOver; infer_instance

/-- The strict part of the due-customers order: the composite
`(balance, id)` key strictly increasing. -/
def ltDue (c d : Customer) : Prop :=
  c.balance < d.balance ∨ (c.balance = d.balance ∧ c.id < d.id)

instance : IsTotal Customer leDue := ⟨by
  intro a b
  unfold leDue
  rcases lt_trichotomy a.balance b.balance with h | h | h
  · exact Or.inl (Or.inl h)
  · rcases Nat.le_total a.id b.id with h2 | h2
    · exact Or.inl (Or.inr ⟨h, h2⟩)
    · exact Or.inr (Or.inr ⟨h.symm, h2⟩)
  · exact Or.inr (Or.inl h)⟩

instance : IsTrans Customer leDue := ⟨by
  intro a b c hab hbc
  unfold leDue at *
  rcases hab with h1 | ⟨e1, i1⟩
  · rcases hbc with h2 | ⟨e2, _⟩
    · exact Or.inl (h1.trans h2)
    · exact Or.inl (e2 ▸ h1)
  · rcases hbc with h2 | ⟨e2, i2⟩
    · exact Or.inl (e1 ▸ h2)
    · exact Or.inr ⟨e1.trans e2, i1.trans i2⟩⟩

instance : IsAntisymm Customer ltDue := ⟨by
  intro a b hab hba
  exfalso
  rcases hab with h1 | ⟨e1, i1⟩ <;> rcases hba with h2 | ⟨e2, i2⟩
  · exact absurd h2 (asymm h1)
  · exact absurd h1 (e2 ▸ lt_irrefl _)
  · exact absurd h2 (e1 ▸ lt_irrefl _)
  · exact absurd (i1.trans i2) (lt_irrefl _)⟩

def modeOrder (mode : ReportView) : Customer → Customer → Prop :=
  match mode with
  | .due_customers => leDue
  | .overpaid_customers => leOver

instance (mode : ReportView) : DecidableRel (modeOrder mode) := by
  cases mode <;> (unfold modeOrder; infer_instance)

/-- `cursor_cmp`: `balance > ? OR (balance = ? AND id > ?)` for due,
mirrored inequality for overpaid. -/
def modeCursorCmp (mode : ReportView) (cur : Rat × Nat) (c : Customer) : Bool :=
  match mode with
  | .due_customers => decide (cur.1 < c.balance) || (c.balance == cur.1 && decide (cur.2 < c.id))
  | .overpaid_customers => decide (c.balance < cur.1) || (c.balance == cur.1 && decide (cur.2 < c.id))

/-- The result shape of `fetch_balances_page`. -/
structure Page where
  items : List Customer
  next_cursor : Option (Rat × Nat)
  has_more : Bool
deriving DecidableEq, Repr

/-- `fetch_balances_page`: filter by admin, balance sign and (when a
cursor is given) the composite cursor comparison; sort by the mode's
order; fetch `limit + 1` rows; truncate to `limit`; `has_more` records
whether more than `limit` rows were fetched; `next_cursor` encodes the
last item's `(balance, id)`. -/
def fetchBalancesPage (mode : ReportView) (admin : Nat) (limit : Nat)
    (cursor : Option (Rat × Nat)) (s : Store) : Page :=
  let matching := s.customers.filter (fun c =>
    c.admin_id == admin && modeBalanceFilter mode c &&
      (match cursor with
       | none => true
       | some cur => modeCursorCmp mode cur c))
  let rows := (List.insertionSort (modeOrder mode) matching).take (limit + 1)
  let items := rows.take limit
  { items := items
    next_cursor := (items.getLast?).map (fun c => (c.balance, c.id))
    has_more := decide (limit < rows.length) }

/-- The single unpaginated due-customers query the paged walk is
compared against: same filter, same `ORDER BY balance ASC, id ASC`. -/
def sortedDue (admin : Nat) (s : Store) : List Customer :=
  List.insertionSort leDue
    (s.customers.filter (fun c => c.admin_id == admin && modeBalanceFilter .due_customers c))

/-- The rows still ahead of a cursor position in the unpaginated
due-customers listing. -/
def dueAvail (admin : Nat) (cursor : Option (Rat × Nat)) (s : Store) : List Customer :=
  match cursor with
  | none => sortedDue admin s
  | some k => (sortedDue admin s).filter (modeCursorCmp .due_customers k)

/-- Modelled from the spec: the report-view page walker (the `report`
callback wired in `main.py` has no implementation in `bot/handlers.py`).  Per the
spec's cursor contract — "Cursor format: (last_balance, last_id)" — it
feeds each page's `next_cursor` back as the next request's cursor while
`has_more` holds, starting from the first page. -/
def collectDuePages (admin limit : Nat) (s : Store) :
    Nat → Option (Rat × Nat) → List Customer
  | 0, _ => []
  | fuel + 1, cursor =>
    let p := fetchBalancesPage .due_customers admin limit cursor s
    if p.has_more then p.items ++ collectDuePages admin limit s fuel p.next_cursor
    else p.items

/-! ## Ledger-op sequences for the balance invariant -/

/-- The operations quantified over by the balance-identity property:
validated add-transaction requests and add-transaction undos. -/
inductive LedgerOp
  | addTx (amount : Rat) (rawKind : List Char) (descr : String) (cid admin : Nat)
  | undoTx (tid : Nat)

/-- Run one operation; a failing operation rolls back, leaving the
store unchanged. -/
def applyOp (s : Store) : LedgerOp → Store
  | .addTx a k d cid admin => (ledgerAddTransaction a k d cid admin s).2
  | .undoTx tid =>
    match undoAddTransactionDb tid s with
    | .error _ => s
    | .ok s1 => s1

def applyOps (s : Store) (ops : List LedgerOp) : Store := ops.foldl applyOp s

/-- Sum of the `payment` amounts currently persisted for customer `cid`. -/
def paymentsOf (cid : Nat) (ts : List Transaction) : Rat :=
  ((ts.filter (fun t => t.customer_id == cid && t.type_ == TxType.payment)).map (·.amount)).sum

/-- Sum of the `sale` amounts currently persisted for customer `cid`. -/
def salesOf (cid : Nat) (ts : List Transaction) : Rat :=
  ((ts.filter (fun t => t.customer_id == cid && t.type_ == TxType.sale)).map (·.amount)).sum

/-- The spec's balance identity, for every customer of the store. -/
def BalanceInv (s : Store) : Prop :=
  ∀ c ∈ s.customers, c.balance = paymentsOf c.id s.transactions - salesOf c.id s.transactions

instance (s : Store) : Decidable (BalanceInv s) := by
  unfold BalanceInv; infer_instance

/-- The inductive invariant: the balance identity together with the
facts that persisted amounts are positive (the validated boundary only
stores positive amounts) and transaction ids are distinct (primary
key). -/
def LedgerInv (s : Store) : Prop :=
  BalanceInv s ∧ (∀ t ∈ s.transactions, 0 < t.amount) ∧ (s.transactions.map (·.id)).Nodup

instance (s : Store) : Decidable (LedgerInv s) := by
  unfold LedgerInv; infer_instance

instance {ε α : Type} [DecidableEq ε] [DecidableEq α] : DecidableEq (Except ε α) := fun x y =>
  match x, y with
  | .ok a, .ok b =>
    if h : a = b then .isTrue (by rw [h]) else .isFalse (by intro he; cases he; exact h rfl)
  | .ok _, .error _ => .isFalse (by intro he; cases he)
  | .error _, .ok _ => .isFalse (by intro he; cases he)
  | .error e, .error f =>
    if h : e = f then .isTrue (by rw [h]) else .isFalse (by intro he; cases he; exact h rfl)

/-! ## Concrete fixtures for witnesses and bug demonstrations -/

/-- A freshly initialized database (empty tables, clock at day 100). -/
def emptyStore : Store := ⟨[], [], [], [], 1, 1, 100⟩

/-- Extract the post-state of a successful store call (fixture plumbing). -/
def stepOk {α : Type} (r : Except Err (α × Store)) (fallback : Store) : Store :=
  match r with
  | .ok (_, s) => s
  | .error _ => fallback

def aliName : List Char := ['a', 'l', 'i']

def bobName : List Char := ['b', 'o', 'b']

def johnName : List Char := ['j', 'o', 'h', 'n', ' ', 'd', 'o', 'e']

def johnUpper : List Char := ['J', 'O', 'H', 'N', ' ', 'D', 'O', 'E']

/-- Admin 6 has added customer "ali" (id 1) and recorded a sale of 10
against it: the customer row carries balance -10, and both actions are
logged (the state `add_customer` then `add_transaction` produce). -/
def fxAliTx : Store :=
  ⟨[⟨1, aliName, none, 6, -10, 100⟩],
   [⟨1, 10, .sale, 1, 6, "t1", 100⟩],
   [⟨1, 6, 1, .add_customer, .addCustomerP 1 6, 100⟩,
    ⟨2, 6, 1, .add_transaction, .addTransactionP 1 6 1, 100⟩],
   [], 2, 3, 100⟩

/-- ... then deleted the customer (snapshotting it and its transaction
into the `delete_customer` action log). -/
def fxAliDel : Store := stepOk (deleteCustomerDb true 1 6 fxAliTx) emptyStore

/-- Admin 7 has added customer "bob" (id 1), logged. -/
def fxBob : Store := stepOk (addCustomerDb true bobName none 7 emptyStore) emptyStore

/-- Admin 1 has added customer "john doe" (id 1), logged. -/
def fxJohn : Store := stepOk (addCustomerDb true johnName none 1 emptyStore) emptyStore

/-- A single fresh customer of admin 6 with balance 0 and no
transactions (the just-created state quantified over in the balance
identity). -/
def fxOne : Store := ⟨[⟨1, aliName, none, 6, 0, 100⟩], [], [], [], 2, 1, 100⟩

/-- Twelve due customers (balances -1 .. -12) of admin 1. -/
def dueStore12 : Store :=
  ⟨[⟨1, ['c'], none, 1, -1, 0⟩, ⟨2, ['c'], none, 1, -2, 0⟩, ⟨3, ['c'], none, 1, -3, 0⟩,
    ⟨4, ['c'], none, 1, -4, 0⟩, ⟨5, ['c'], none, 1, -5, 0⟩, ⟨6, ['c'], none, 1, -6, 0⟩,
    ⟨7, ['c'], none, 1, -7, 0⟩, ⟨8, ['c'], none, 1, -8, 0⟩, ⟨9, ['c'], none, 1, -9, 0⟩,
    ⟨10, ['c'], none, 1, -10, 0⟩, ⟨11, ['c'], none, 1, -11, 0⟩, ⟨12, ['c'], none, 1, -12, 0⟩],
   [], [], [], 13, 1, 0⟩

/-- Two action-log rows of admin 7: one 99 days old, one 5 days old
(clock at day 100). -/
def fxLogs : Store :=
  ⟨[], [],
   [⟨1, 7, 1, .add_customer, .addCustomerP 1 7, 1⟩,
    ⟨2, 7, 1, .add_customer, .addCustomerP 1 7, 95⟩],
   [], 1, 3, 100⟩

/-- Raw `/addcustomer` name input "JO  an" (mixed case, doubled space). -/
def rawMixedName : List Char := ['J', 'O', ' ', ' ', 'a', 'n']

/-- Raw one-token name input. -/
def rawOneWord : List Char := ['a', 'b']

def phone10 : List Char := ['0', '1', '2', '3', '4', '5', '6', '7', '8', '9']

def loanKind : List Char := ['l', 'o', 'a', 'n']

/-! ## Helper lemmas -/

theorem find?_append_of_none {α : Type} (p : α → Bool) (l1 l2 : List α)
    (h : ∀ x ∈ l1, p x = false) : List.find? p (l1 ++ l2) = List.find? p l2 := by
  induction l1 with
  | nil => rfl
  | cons a l ih =>
    simp only [List.cons_append, List.find?]
    rw [h a (by simp)]
    exact ih (fun x hx => h x (by simp [hx]))

theorem find?_map_of_id (cid : Nat) (f : Customer → Customer) (hf : ∀ x, (f x).id = x.id)
    (l : List Customer) :
    (l.map f).find? (fun c => c.id == cid) = (l.find? (fun c => c.id == cid)).map f := by
  rw [List.find?_map]
  have he : ((fun c : Customer => c.id == cid) ∘ f) = (fun c : Customer => c.id == cid) :=
    funext fun x => by simp [Function.comp, hf x]
  rw [he]

theorem charOfNat_toNat (n : Nat) (h : n < 55296) : (Char.ofNat n).toNat = n := by
  unfold Char.ofNat
  rw [dif_pos]
  · rfl
  · unfold Nat.isValidChar
    left
    omega

theorem toLower_toLower (c : Char) : c.toLower.toLower = c.toLower := by
  unfold Char.toLower
  by_cases h : c.toNat ≥ 65 ∧ c.toNat ≤ 90
  · rw [if_pos h]
    have ht : (Char.ofNat (c.toNat + 32)).toNat = c.toNat + 32 := charOfNat_toNat _ (by omega)
    rw [if_neg]
    rw [ht]
    omega
  · rw [if_neg h, if_neg h]

theorem dropWhile_eq_self_of_none (p : Char → Bool) (l : List Char)
    (h : ∀ c ∈ l, p c = false) : l.dropWhile p = l := by
  cases l with
  | nil => rfl
  | cons a l => simp [List.dropWhile, h a (by simp)]

theorem trimWs_eq_self (l : List Char) (h : ∀ c ∈ l, c.isWhitespace = false) : trimWs l = l := by
  unfold trimWs lTrim
  rw [dropWhile_eq_self_of_none _ l h]
  rw [dropWhile_eq_self_of_none _ l.reverse (fun c hc => h c (List.mem_reverse.mp hc))]
  exact l.reverse_reverse

theorem map_of_fixed {α : Type} (f : α → α) (l : List α) (h : ∀ c ∈ l, f c = c) :
    l.map f = l := by
  induction l with
  | nil => rfl
  | cons a l ih => simp [h a (by simp), ih (fun c hc => h c (by simp [hc]))]

theorem wsTokensAux_chars : ∀ (s acc t : List Char), t ∈ wsTokensAux acc s →
    ∀ c ∈ t, c ∈ acc ∨ c ∈ s := by
  intro s
  induction s with
  | nil =>
    intro acc t ht c hc
    unfold wsTokensAux at ht
    by_cases ha : acc.isEmpty
    · simp [ha] at ht
    · rw [if_neg ha] at ht
      simp at ht
      subst ht
      exact Or.inl (List.mem_reverse.mp hc)
  | cons a s ih =>
    intro acc t ht c hc
    unfold wsTokensAux at ht
    by_cases hw : a.isWhitespace
    · rw [if_pos hw] at ht
      by_cases ha : acc.isEmpty
      · rw [if_pos ha] at ht
        rcases ih [] t ht c hc with h | h
        · simp at h
        · exact Or.inr (by simp [h])
      · rw [if_neg ha] at ht
        rcases List.mem_cons.mp ht with rfl | ht2
        · exact Or.inl (List.mem_reverse.mp hc)
        · rcases ih [] t ht2 c hc with h | h
          · simp at h
          · exact Or.inr (by simp [h])
    · rw [if_neg hw] at ht
      rcases ih (a :: acc) t ht c hc with h | h
      · rcases List.mem_cons.mp h with rfl | h2
        · exact Or.inr (by simp)
        · exact Or.inl h2
      · exact Or.inr (by simp [h])

theorem wsTokensAux_nonws : ∀ (s acc t : List Char),
    (∀ c ∈ acc, c.isWhitespace = false) → t ∈ wsTokensAux acc s →
    ∀ c ∈ t, c.isWhitespace = false := by
  intro s
  induction s with
  | nil =>
    intro acc t hacc ht c hc
    unfold wsTokensAux at ht
    by_cases ha : acc.isEmpty
    · simp [ha] at ht
    · rw [if_neg ha] at ht
      simp at ht
      subst ht
      exact hacc c (List.mem_reverse.mp hc)
  | cons a s ih =>
    intro acc t hacc ht c hc
    unfold wsTokensAux at ht
    by_cases hw : a.isWhitespace
    · rw [if_pos hw] at ht
      by_cases ha : acc.isEmpty
      · rw [if_pos ha] at ht
        exact ih [] t (by simp) ht c hc
      · rw [if_neg ha] at ht
        rcases List.mem_cons.mp ht with rfl | ht2
        · exact hacc c (List.mem_reverse.mp hc)
        · exact ih [] t (by simp) ht2 c hc
    · rw [if_neg hw] at ht
      refine ih (a :: acc) t ?_ ht c hc
      intro d hd
      rcases List.mem_cons.mp hd with rfl | hd2
      · exact Bool.eq_false_iff.mpr hw
      · exact hacc d hd2

theorem wsTokensAux_ne_nil : ∀ (s acc t : List Char), t ∈ wsTokensAux acc s → t ≠ [] := by
  intro s
  induction s with
  | nil =>
    intro acc t ht
    unfold wsTokensAux at ht
    by_cases ha : acc.isEmpty
    · simp [ha] at ht
    · rw [if_neg ha] at ht
      simp at ht
      subst ht
      simpa [List.isEmpty_iff] using ha
  | cons a s ih =>
    intro acc t ht
    unfold wsTokensAux at ht
    by_cases hw : a.isWhitespace
    · rw [if_pos hw] at ht
      by_cases ha : acc.isEmpty
      · rw [if_pos ha] at ht
        exact ih [] t ht
      · rw [if_neg ha] at ht
        rcases List.mem_cons.mp ht with rfl | ht2
        · simpa [List.isEmpty_iff] using ha
        · exact ih [] t ht2
    · rw [if_neg hw] at ht
      exact ih (a :: acc) t ht

theorem normalizeName_token_fix (u t : List Char) (ht : t ∈ wsTokens (normalizeName u)) :
    normalizeName t = t := by
  have h1 : ∀ c ∈ t, c.isWhitespace = false :=
    wsTokensAux_nonws (normalizeName u) [] t (by simp) ht
  have h2 : ∀ c ∈ t, c.toLower = c := by
    intro c hc
    have hm : c ∈ normalizeName u := by
      rcases wsTokensAux_chars (normalizeName u) [] t ht c hc with h | h
      · simp at h
      · exact h
    unfold normalizeName at hm
    obtain ⟨d, _, rfl⟩ := List.mem_map.mp hm
    exact toLower_toLower d
  unfold normalizeName
  rw [trimWs_eq_self t h1, map_of_fixed _ t h2]

theorem joinSpace_cons (t : List Char) (ts : List (List Char)) (h : ts ≠ []) :
    joinSpace (t :: ts) = t ++ ' ' :: joinSpace ts := by
  cases ts with
  | nil => exact absurd rfl h
  | cons a ts => rfl

theorem joinSpace_concat (ts : List (List Char)) (t : List Char) :
    joinSpace (ts ++ [t]) = if ts.isEmpty then t else joinSpace ts ++ ' ' :: t := by
  induction ts with
  | nil => rfl
  | cons a ts ih =>
    rw [List.cons_append, joinSpace_cons a (ts ++ [t]) (by simp), ih]
    cases ts with
    | nil => rfl
    | cons b ts' =>
      rw [if_neg (by simp), if_neg (by simp), joinSpace_cons a (b :: ts') (by simp)]
      simp

theorem joinSpace_ne_nil (ts : List (List Char)) (h : ts ≠ []) (h2 : ∀ t ∈ ts, t ≠ []) :
    joinSpace ts ≠ [] := by
  cases ts with
  | nil => exact absurd rfl h
  | cons a ts =>
    cases ts with
    | nil => exact h2 a (by simp)
    | cons b ts' =>
      rw [joinSpace_cons a (b :: ts') (by simp)]
      simp

theorem normalizeFullname_eq_collapsed (name : List Char)
    (h : 2 ≤ (pySplitWs (normalizeName name)).length) :
    normalizeFullname name = specCollapsedName name := by
  have hne : (normalizeName name).isEmpty = false := by
    by_contra hx
    have hx2 : (normalizeName name).isEmpty = true := by
      revert hx
      cases (normalizeName name).isEmpty <;> simp
    unfold pySplitWs at h
    rw [if_pos hx2] at h
    simp at h
  have hps : pySplitWs (normalizeName name) = wsTokens (normalizeName name) := by
    unfold pySplitWs
    rw [if_neg (by simp [hne])]
  unfold normalizeFullname specCollapsedName
  rw [hps] at h ⊢
  rw [if_neg (by omega)]
  rcases hw : wsTokens (normalizeName name) with _ | ⟨first0, rest⟩
  · rw [hw] at h; simp at h
  · rw [hw] at h
    have hrest : rest ≠ [] := by
      intro hx
      rw [hx] at h
      simp at h
    rcases hl : rest.getLast? with _ | last0
    · exact absurd (List.getLast?_eq_none_iff.mp hl) hrest
    · have hlast : rest.getLast hrest = last0 := by
        have := List.getLast?_eq_getLast rest hrest
        rw [hl] at this
        exact (Option.some.injEq _ _).mp this.symm
      have hsplit : rest.dropLast ++ [last0] = rest := by
        rw [← hlast]
        exact List.dropLast_append_getLast hrest
      have hmem : ∀ t ∈ wsTokens (normalizeName name), normalizeName t = t :=
        fun t ht => normalizeName_token_fix name t ht
      have hfix_first : normalizeName first0 = first0 := hmem first0 (by rw [hw]; simp)
      have hfix_last : normalizeName last0 = last0 := by
        refine hmem last0 ?_
        rw [hw]
        exact List.mem_cons_of_mem _ (hsplit ▸ List.mem_append_right _ (by simp))
      have hfix_mid : rest.dropLast.map normalizeName = rest.dropLast := by
        refine map_of_fixed _ _ ?_
        intro t ht
        refine hmem t ?_
        rw [hw]
        exact List.mem_cons_of_mem _ (List.dropLast_sublist rest |>.mem ht)
      simp only [hl, hfix_first, hfix_last, hfix_mid]
      rw [joinSpace_cons first0 rest hrest]
      conv_rhs => rw [← hsplit]
      rw [joinSpace_concat rest.dropLast last0]
      rcases hd : rest.dropLast with _ | ⟨m, ms⟩
      · simp [joinSpace]
      · have hdne : (m :: ms).isEmpty = false := by simp
        rw [hdne]
        have hjne : joinSpace (m :: ms) ≠ [] := by
          refine joinSpace_ne_nil (m :: ms) (by simp) ?_
          intro t ht
          have htt : t ∈ wsTokens (normalizeName name) := by
            rw [hw]
            exact List.mem_cons_of_mem _ ((hd ▸ List.dropLast_sublist rest).mem ht)
          exact wsTokensAux_ne_nil (normalizeName name) [] t htt
        rw [if_pos (by simpa [List.length_pos] using hjne)]
        simp

/-! ## Claim theorems -/

/-- C1: the claim says delete-customer followed by undo restores the
customer and its transactions exactly.  The code disagrees: the
`undo-args` payload stored by `delete_customer` has no `admin_id`, so
`execute_undo`'s `db.undo_delete_customer(**undo_args)` raises before
touching the store, the undo transaction rolls back, and the customer
stays deleted.  Demonstrated on admin 6's customer "ali" (id 1, one sale
of 10): before the delete the customer is present with balance -10;
after delete-then-undo the undo reports a failure, the store equals the
post-delete store, and the customer is still absent. -/
theorem delete_customer_undo_fails_on_code :
    findCustomer 1 6 fxAliTx = some ⟨1, aliName, none, 6, -10, 100⟩ ∧
    (undoLastActionForAdmin 6 false fxAliDel).1 = .error .unexpected ∧
    (undoLastActionForAdmin 6 false fxAliDel).2 = fxAliDel ∧
    findCustomer 1 6 (undoLastActionForAdmin 6 false fxAliDel).2 = none := by
  decide

/-- C3: the claim says a mid-flight undo failure rolls the whole undo
back for all five action kinds, including add-customer.  The code
disagrees for add-customer: `undo_add_customer` calls `delete_customer`
with `with_commit=True`, committing the inverse before the log-row
delete runs.  With the log-row deletion failing (affecting zero rows,
the failure the coordinator checks for), the failed undo leaves the
customer deleted and the log row present — the observable state differs
from the pre-undo state. -/
theorem undo_add_customer_commits_mid_undo :
    fxBob.customers ≠ [] ∧
    (undoLastActionForAdmin 7 true fxBob).1 = .error .unexpected ∧
    (undoLastActionForAdmin 7 true fxBob).2.customers = [] ∧
    (undoLastActionForAdmin 7 true fxBob).2.action_logs = fxBob.action_logs ∧
    fxBob.action_logs ≠ [] ∧
    (undoLastActionForAdmin 7 true fxBob).2 ≠ fxBob := by
  decide

/-- C5 counterexample: the claim says name uniqueness is scoped per
admin, so two different admins can each add a customer named
"john doe".  The schema's `fullname TEXT UNIQUE ... COLLATE NOCASE` is
global: after admin 1 adds "john doe", admin 2's insert of the same
name (in either case) fails with the name-collision error. -/
theorem cross_admin_same_name_rejected :
    addCustomerDb true johnName none 1 emptyStore = .ok (1, fxJohn) ∧
    addCustomerDb true johnName none 2 fxJohn = .error .duplicateName ∧
    addCustomerDb true johnUpper none 2 fxJohn = .error .duplicateName := by
  decide

/-- C5 (amended): adding a customer whose full name equals, ASCII
case-insensitively, the full name of any existing customer — of the
same or of a different admin, since the uniqueness constraint is global
— fails with the `DuplicateName` error rather than a generic fault. -/
theorem add_customer_duplicate_name_rejected (wl : Bool) (name : List Char)
    (phone : Option (List Char)) (admin : Nat) (s : Store)
    (h : ∃ c ∈ s.customers, nocaseEq c.fullname name = true) :
    addCustomerDb wl name phone admin s = .error .duplicateName := by
  unfold addCustomerDb
  rw [if_pos]
  exact List.any_eq_true.mpr h

/-- C5 witness: the same-admin duplicate of the claim's example — admin
1 already has "john doe" and adds "JOHN DOE". -/
theorem add_customer_duplicate_name_rejected_witness :
    addCustomerDb true johnUpper none 1 fxJohn = .error .duplicateName :=
  add_customer_duplicate_name_rejected true johnUpper none 1 fxJohn (by decide)

/-- C8: after the retention sweep, every action-log row older than 30
days (per the sweep-time clock) is in the archive table and gone from
the live table, and every row within the last 30 days is still in the
live table and was not copied to the archive. -/
theorem clear_old_logs_archival (s : Store) (l : ActionLog) (h : l ∈ s.action_logs) :
    (l.created_at < s.now - 30 →
      l ∈ (clearOldLogs s).archive ∧ l ∉ (clearOldLogs s).action_logs) ∧
    (s.now - 30 ≤ l.created_at →
      l ∈ (clearOldLogs s).action_logs ∧ (l ∉ s.archive → l ∉ (clearOldLogs s).archive)) := by
  unfold clearOldLogs
  constructor
  · intro hold
    constructor
    · simp [List.mem_append, List.mem_filter, h, hold]
    · simp [List.mem_filter, hold]
  · intro hrec
    have hnot : ¬(l.created_at < s.now - 30) := not_lt.mpr hrec
    constructor
    · simp [List.mem_filter, h, hnot]
    · intro harch
      simp [List.mem_append, List.mem_filter, harch, hnot]

/-- C8 witness: with the clock at day 100, admin 7's log row from day 1
is archived and removed from the live table, while the row from day 95
stays live and unarchived. -/
theorem clear_old_logs_archival_witness :
    ((⟨1, 7, 1, .add_customer, .addCustomerP 1 7, 1⟩ : ActionLog) ∈ (clearOldLogs fxLogs).archive ∧
      (⟨1, 7, 1, .add_customer, .addCustomerP 1 7, 1⟩ : ActionLog) ∉ (clearOldLogs fxLogs).action_logs) ∧
    ((⟨2, 7, 1, .add_customer, .addCustomerP 1 7, 95⟩ : ActionLog) ∈ (clearOldLogs fxLogs).action_logs ∧
      (⟨2, 7, 1, .add_customer, .addCustomerP 1 7, 95⟩ : ActionLog) ∉ (clearOldLogs fxLogs).archive) := by
  refine ⟨(clear_old_logs_archival fxLogs _ (by decide)).1 (by decide), ?_⟩
  have h2 := (clear_old_logs_archival fxLogs ⟨2, 7, 1, .add_customer, .addCustomerP 1 7, 95⟩
    (by decide)).2 (by decide)
  exact ⟨h2.1, h2.2 (by decide)⟩

/-- C6: at the `/addtransaction` boundary, a kind outside
`('sale', 'payment')` (after `strip().lower()`) is rejected with the
invalid-kind usage error, and — for a recognised kind — an amount not
strictly greater than 0 is rejected with the invalid-amount error; in
both cases the rejection happens before any store call, so the returned
state is the unchanged input state (no transaction row, no balance
change).  When both validations fail the kind check fires first. -/
theorem add_transaction_boundary_validation (amount : Rat) (rawKind : List Char)
    (descr : String) (cid admin : Nat) (s : Store) :
    (¬(normalizeName rawKind = saleStr ∨ normalizeName rawKind = paymentStr) →
      ledgerAddTransaction amount rawKind descr cid admin s = (.error .invalidKind, s)) ∧
    ((normalizeName rawKind = saleStr ∨ normalizeName rawKind = paymentStr) → amount ≤ 0 →
      ledgerAddTransaction amount rawKind descr cid admin s = (.error .invalidAmount, s)) := by
  constructor
  · intro h
    have hb : (normalizeName rawKind == saleStr || normalizeName rawKind == paymentStr) = false := by
      rw [Bool.or_eq_false_iff]
      constructor <;> rw [beq_eq_false_iff_ne]
      · exact fun he => h (Or.inl he)
      · exact fun he => h (Or.inr he)
    unfold ledgerAddTransaction
    simp only [hb, Bool.not_false, if_true]
  · intro h hamt
    have hb : (normalizeName rawKind == saleStr || normalizeName rawKind == paymentStr) = true := by
      rcases h with he | he <;> simp [he]
    unfold ledgerAddTransaction
    simp only [hb, Bool.not_true, Bool.false_eq_true, if_false, if_pos hamt]

/-- C6 witness: kind "loan" is rejected as invalid kind, and a sale of
amount 0 is rejected as invalid amount, both leaving the fresh store
untouched. -/
theorem add_transaction_boundary_validation_witness :
    ledgerAddTransaction 5 loanKind "" 1 1 emptyStore = (.error .invalidKind, emptyStore) ∧
    ledgerAddTransaction 0 saleStr "" 1 1 emptyStore = (.error .invalidAmount, emptyStore) :=
  ⟨(add_transaction_boundary_validation 5 loanKind "" 1 1 emptyStore).1 (by decide),
   (add_transaction_boundary_validation 0 saleStr "" 1 1 emptyStore).2 (by decide) (by decide)⟩

/-- C9: the store-level `add_transaction` accepts any amount (it does
not re-validate positivity): for kind `sale` or `payment` and any
amount — negative included — the customer's balance moves by exactly
`|amount|` in the direction fixed by the kind (payment adds, sale
subtracts), while the inserted transaction row records the raw signed
amount as given. -/
theorem add_transaction_store_semantics (s : Store) (amount : Rat) (type_ : List Char)
    (descr : String) (cid admin : Nat) (c : Customer)
    (hk : type_ = saleStr ∨ type_ = paymentStr)
    (hc : findCustomerById cid s = some c) :
    ∃ s', addTransactionDb true amount type_ descr cid admin s = .ok (nextTransactionId s, s') ∧
      findCustomerById cid s' =
        some { c with balance := c.balance + (if type_ = paymentStr then |amount| else -|amount|) } ∧
      s'.transactions = s.transactions ++
        [⟨nextTransactionId s, amount, (if type_ = paymentStr then .payment else .sale),
          cid, admin, descr, s.now⟩] := by
  have hidp : ∀ (δ : Rat) (x : Customer),
      ((if x.id == cid then { x with balance := x.balance + δ } else x) : Customer).id = x.id := by
    intro δ x
    split <;> rfl
  have hcf : List.find? (fun c => c.id == cid) s.customers = some c := hc
  have hcid : (c.id == cid) = true := by simpa using List.find?_some hcf
  rcases hk with rfl | rfl
  · refine ⟨addActionLog .add_transaction cid admin (.addTransactionP cid admin (nextTransactionId s))
      { s with
        customers := s.customers.map (fun d =>
          if d.id == cid then { d with balance := d.balance + (-1 * |amount|) } else d),
        transactions := s.transactions ++
          [⟨nextTransactionId s, amount, .sale, cid, admin, descr, s.now⟩] }, ?_, ?_, ?_⟩
    · unfold addTransactionDb updateBalance
      rw [hc]
      rfl
    · show (s.customers.map (fun d =>
          if d.id == cid then { d with balance := d.balance + (-1 * |amount|) } else d)).find?
            (fun c => c.id == cid) =
        some { c with balance := c.balance + (if saleStr = paymentStr then |amount| else -|amount|) }
      rw [find?_map_of_id cid _ (hidp (-1 * |amount|)), hcf]
      simp [hcid, neg_one_mul, if_neg (by decide : ¬(saleStr = paymentStr))]
      intro hne
      exact absurd (by simpa using hcid) hne
    · simp [addActionLog, if_neg (by decide : ¬(saleStr = paymentStr))]
  · refine ⟨addActionLog .add_transaction cid admin (.addTransactionP cid admin (nextTransactionId s))
      { s with
        customers := s.customers.map (fun d =>
          if d.id == cid then { d with balance := d.balance + (1 * |amount|) } else d),
        transactions := s.transactions ++
          [⟨nextTransactionId s, amount, .payment, cid, admin, descr, s.now⟩] }, ?_, ?_, ?_⟩
    · unfold addTransactionDb updateBalance
      rw [hc]
      rfl
    · show (s.customers.map (fun d =>
          if d.id == cid then { d with balance := d.balance + (1 * |amount|) } else d)).find?
            (fun c => c.id == cid) =
        some { c with balance := c.balance + (if paymentStr = paymentStr then |amount| else -|amount|) }
      rw [find?_map_of_id cid _ (hidp (1 * |amount|)), hcf]
      simp [hcid, one_mul]
      intro hne
      exact absurd (by simpa using hcid) hne
    · simp [addActionLog, if_pos rfl]

/-- C9 witness: a payment of -5 for customer 1 of admin 6 moves the
balance by +|-5| while the stored row keeps amount -5. -/
theorem add_transaction_store_semantics_witness :
    ∃ s', addTransactionDb true (-5) paymentStr "" 1 6 fxOne = .ok (nextTransactionId fxOne, s') ∧
      findCustomerById 1 s' =
        some { id := 1, fullname := aliName, phone := none, admin_id := 6,
               balance := (0 : Rat) + (if paymentStr = paymentStr then |(-5 : Rat)| else -|(-5 : Rat)|),
               created_at := 100 } ∧
      s'.transactions = fxOne.transactions ++
        [⟨nextTransactionId fxOne, -5, (if paymentStr = paymentStr then .payment else .sale),
          1, 6, "", fxOne.now⟩] :=
  add_transaction_store_semantics fxOne (-5) paymentStr "" 1 6
    ⟨1, aliName, none, 6, 0, 100⟩ (Or.inr rfl) (by decide)

/-- C10: through the validation facade, a successfully added customer's
stored full name is the normalized input — lowercased, stripped, with
internal whitespace runs collapsed to single spaces — and an input that
normalizes to fewer than two name tokens is rejected as an invalid name
with the store untouched. -/
theorem svc_add_customer_stores_normalized (rawName rawPhone : List Char) (admin : Nat)
    (s : Store) :
    ((pySplitWs (normalizeName rawName)).length < 2 →
      svcAddCustomer rawName rawPhone admin s = (.error .invalidName, s)) ∧
    (∀ cid s', svcAddCustomer rawName rawPhone admin s = (.ok cid, s') →
      ∃ c ∈ s'.customers, c.id = s.next_customer_id ∧ c.fullname = specCollapsedName rawName) := by
  constructor
  · intro hlt
    have hnf : normalizeFullname rawName = [] := by
      unfold normalizeFullname
      rw [if_pos hlt]
    unfold svcAddCustomer
    rw [hnf]
    rfl
  · intro cid s' hok
    unfold svcAddCustomer at hok
    simp only [] at hok
    rcases hv : isValidName (normalizeFullname rawName) with _ | _
    · rw [hv] at hok
      simp at hok
    · rw [hv] at hok
      rcases hp : isValidPhone (normalizePhone rawPhone) with _ | _
      · rw [hp] at hok
        simp at hok
      · rw [hp] at hok
        simp only [Bool.not_true, Bool.false_eq_true, if_false] at hok
        rcases hadd : addCustomerDb true (normalizeFullname rawName)
            (some (normalizePhone rawPhone)) admin s with e | ⟨cid0, s1⟩
        · rw [hadd] at hok
          cases e <;> simp at hok
        · rw [hadd] at hok
          simp only [Prod.mk.injEq] at hok
          obtain ⟨-, rfl⟩ := hok
          unfold addCustomerDb at hadd
          by_cases hdup : (s.customers.any (fun c => nocaseEq c.fullname (normalizeFullname rawName))) = true
          · rw [if_pos hdup] at hadd
            simp at hadd
          · rw [if_neg hdup] at hadd
            simp only [Except.ok.injEq, Prod.mk.injEq] at hadd
            obtain ⟨-, rfl⟩ := hadd
            have hlen : 2 ≤ (pySplitWs (normalizeName rawName)).length := by
              by_contra hx
              have hnf : normalizeFullname rawName = [] := by
                unfold normalizeFullname
                rw [if_pos (by omega)]
              rw [hnf] at hv
              exact absurd hv (by decide)
            refine ⟨⟨s.next_customer_id, normalizeFullname rawName,
              some (normalizePhone rawPhone), admin, 0, s.now⟩, ?_, rfl, ?_⟩
            · cases hwl : true <;> simp [addActionLog]
            · exact normalizeFullname_eq_collapsed rawName hlen

/-- C10 witness: the one-token input "ab" is rejected as an invalid
name, and the successful input "JO  an" is stored as "jo an" — its
lowercased, stripped, whitespace-collapsed form. -/
theorem svc_add_customer_stores_normalized_witness :
    svcAddCustomer rawOneWord phone10 1 emptyStore = (.error .invalidName, emptyStore) ∧
    ∃ c ∈ (svcAddCustomer rawMixedName phone10 1 emptyStore).2.customers,
      c.id = 1 ∧ c.fullname = specCollapsedName rawMixedName := by
  constructor
  · exact (svc_add_customer_stores_normalized rawOneWord phone10 1 emptyStore).1 (by decide)
  · have h1 : (svcAddCustomer rawMixedName phone10 1 emptyStore).1 = .ok 1 := by decide
    have hok : svcAddCustomer rawMixedName phone10 1 emptyStore =
        (.ok 1, (svcAddCustomer rawMixedName phone10 1 emptyStore).2) := by
      rw [← h1]
    exact (svc_add_customer_stores_normalized rawMixedName phone10 1 emptyStore).2 1 _ hok

theorem foldl_maxIdStep_lt (L : ActionLog) :
    ∀ (ls : List ActionLog) (acc : Option ActionLog),
    (∀ l ∈ ls, l.id < L.id) →
    (acc = none ∨ ∃ m, acc = some m ∧ m.id < L.id) →
    (ls.foldl maxIdStep acc = none ∨ ∃ m, ls.foldl maxIdStep acc = some m ∧ m.id < L.id) := by
  intro ls
  induction ls with
  | nil =>
    intro acc _ hacc
    exact hacc
  | cons a ls ih =>
    intro acc h hacc
    refine ih (maxIdStep acc a) (fun l hl => h l (by simp [hl])) ?_
    rcases hacc with rfl | ⟨m, rfl, hm⟩
    · exact Or.inr ⟨a, rfl, h a (by simp)⟩
    · simp only [maxIdStep]
      by_cases hlt : m.id < a.id
      · rw [if_pos hlt]
        exact Or.inr ⟨a, rfl, h a (by simp)⟩
      · rw [if_neg hlt]
        exact Or.inr ⟨m, rfl, hm⟩

/-- A log row appended last with the largest id is the one
`_fetch_last_log` returns. -/
theorem lastLogFor_of_logs (admin : Nat) (s : Store) (ls : List ActionLog) (L : ActionLog)
    (hs : s.action_logs = ls ++ [L])
    (hadm : (L.admin_id == admin) = true)
    (h : ∀ l ∈ ls, l.id < L.id) :
    lastLogFor admin s = some L := by
  unfold lastLogFor logsFor
  rw [hs, List.filter_append, List.foldl_append]
  have hfl : List.filter (fun l => l.admin_id == admin) [L] = [L] := by simp [hadm]
  rw [hfl]
  have hstep := foldl_maxIdStep_lt L (ls.filter (fun l => l.admin_id == admin)) none
    (fun l hl => h l (List.mem_filter.mp hl).1) (Or.inl rfl)
  rcases hstep with he | ⟨m, he, hm⟩
  · rw [he]
    rfl
  · rw [he]
    show maxIdStep (some m) L = some L
    simp only [maxIdStep]
    rw [if_pos hm]

theorem foldr_max_ge (ts : List Transaction) (t : Transaction) (ht : t ∈ ts) :
    t.id ≤ ts.foldr (fun u m => max u.id m) 0 := by
  induction ts with
  | nil => cases ht
  | cons a ts ih =>
    rcases List.mem_cons.mp ht with rfl | h2
    · exact le_max_left _ _
    · exact le_trans (ih h2) (le_max_right _ _)

/-- Every existing transaction rowid is below the id SQLite assigns to
the next insert. -/
theorem txnId_lt_next (s : Store) (t : Transaction) (ht : t ∈ s.transactions) :
    t.id < nextTransactionId s :=
  Nat.lt_succ_of_le (foldr_max_ge s.transactions t ht)

/-- Applying the opposite balance delta undoes a balance update
exactly. -/
theorem map_balance_roundtrip (cid : Nat) (δ δ' : Rat) (h : δ + δ' = 0) (l : List Customer) :
    (l.map (fun d => if d.id == cid then { d with balance := d.balance + δ } else d)).map
      (fun d => if d.id == cid then { d with balance := d.balance + δ' } else d) = l := by
  rw [List.map_map]
  refine map_of_fixed _ _ ?_
  intro d _
  simp only [Function.comp]
  by_cases hd : (d.id == cid) = true
  · rw [if_pos hd]
    show (if (d.id == cid) = true then _ else _) = d
    rw [if_pos hd]
    have hb : d.balance + δ + δ' = d.balance := by
      rw [add_assoc, h, add_zero]
    rw [hb]
  · rw [if_neg hd]
    rw [if_neg hd]

theorem balance_update_preserves_id (cid : Nat) (δ : Rat) (x : Customer) :
    ((if x.id == cid then { x with balance := x.balance + δ } else x) : Customer).id = x.id := by
  split <;> rfl

/-- C2: adding a transaction (kind sale or payment, positive amount)
and then undoing it restores the store exactly: the post-undo store
equals the pre-add store except for the consumed AUTOINCREMENT log-id
counter — in particular the balance is back to its pre-transaction
value, the inserted transaction row is gone and the action-log row is
consumed.  If the admin had no other logged action, a second immediate
undo fails with the nothing-to-undo error. -/
theorem add_transaction_undo_roundtrip (s : Store) (amount : Rat) (type_ : List Char)
    (descr : String) (cid admin : Nat) (c : Customer)
    (hwf : WFStore s)
    (hamt : 0 < amount)
    (hk : type_ = saleStr ∨ type_ = paymentStr)
    (hc : findCustomerById cid s = some c) :
    ∃ tid s1,
      addTransactionDb true amount type_ descr cid admin s = .ok (tid, s1) ∧
      undoLastActionForAdmin admin false s1 =
        (.ok (), { s with next_log_id := s.next_log_id + 1 }) ∧
      (logsFor admin s = [] →
        (undoLastActionForAdmin admin false { s with next_log_id := s.next_log_id + 1 }).1 =
          .error .nothingToUndo) := by
  have hcf : List.find? (fun c => c.id == cid) s.customers = some c := hc
  have hsecond : logsFor admin s = [] →
      (undoLastActionForAdmin admin false { s with next_log_id := s.next_log_id + 1 }).1 =
        .error .nothingToUndo := by
    intro hempty
    have hnone : lastLogFor admin ({ s with next_log_id := s.next_log_id + 1 } : Store) = none := by
      unfold lastLogFor logsFor
      show List.foldl maxIdStep none (List.filter (fun l => l.admin_id == admin) s.action_logs) = none
      have hf : List.filter (fun l => l.admin_id == admin) s.action_logs = [] := hempty
      rw [hf]
      rfl
    unfold undoLastActionForAdmin
    rw [hnone]
  rcases hk with rfl | rfl
  · refine ⟨nextTransactionId s,
      addActionLog .add_transaction cid admin (.addTransactionP cid admin (nextTransactionId s))
        { s with
          customers := s.customers.map (fun d =>
            if d.id == cid then { d with balance := d.balance + (-1 * |amount|) } else d),
          transactions := s.transactions ++
            [⟨nextTransactionId s, amount, .sale, cid, admin, descr, s.now⟩] },
      ?_, ?_, hsecond⟩
    · unfold addTransactionDb updateBalance
      rw [hc]
      rfl
    · have hlast : lastLogFor admin
          (addActionLog .add_transaction cid admin (.addTransactionP cid admin (nextTransactionId s))
            { s with
              customers := s.customers.map (fun d =>
                if d.id == cid then { d with balance := d.balance + (-1 * |amount|) } else d),
              transactions := s.transactions ++
                [⟨nextTransactionId s, amount, .sale, cid, admin, descr, s.now⟩] }) =
          some ⟨s.next_log_id, admin, cid, .add_transaction,
            .addTransactionP cid admin (nextTransactionId s), s.now⟩ :=
        lastLogFor_of_logs admin _ s.action_logs _ rfl (by simp) (fun l hl => hwf.1 l hl)
      have hfindT : List.find? (fun t => t.id == nextTransactionId s)
          (s.transactions ++ [⟨nextTransactionId s, amount, .sale, cid, admin, descr, s.now⟩]) =
          some ⟨nextTransactionId s, amount, .sale, cid, admin, descr, s.now⟩ := by
        rw [find?_append_of_none _ _ _
          (fun t ht => beq_eq_false_iff_ne.mpr (Nat.ne_of_lt (txnId_lt_next s t ht)))]
        simp
      have hfiltT : List.filter (fun u => !(u.id == nextTransactionId s))
          (s.transactions ++ [⟨nextTransactionId s, amount, .sale, cid, admin, descr, s.now⟩]) =
          s.transactions := by
        rw [List.filter_append]
        rw [List.filter_eq_self.mpr
          (fun t ht => by simp [beq_eq_false_iff_ne.mpr (Nat.ne_of_lt (txnId_lt_next s t ht))])]
        simp
      have hcancel := map_balance_roundtrip cid (-1 * |amount|) (1 * |amount|) (by ring) s.customers
      have hfiltL : List.filter (fun l => !(l.id == s.next_log_id))
          (s.action_logs ++ [⟨s.next_log_id, admin, cid, .add_transaction,
            .addTransactionP cid admin (nextTransactionId s), s.now⟩]) = s.action_logs := by
        rw [List.filter_append]
        rw [List.filter_eq_self.mpr
          (fun l hl => by simp [beq_eq_false_iff_ne.mpr (Nat.ne_of_lt (hwf.1 l hl))])]
        simp
      have hcnt : (List.countP (fun l => l.id == s.next_log_id)
          (s.action_logs ++ [⟨s.next_log_id, admin, cid, .add_transaction,
            .addTransactionP cid admin (nextTransactionId s), s.now⟩]) == 0) = false := by
        rw [beq_eq_false_iff_ne]
        intro h0
        have hpos : 0 < List.countP (fun l => l.id == s.next_log_id)
            (s.action_logs ++ [⟨s.next_log_id, admin, cid, .add_transaction,
              .addTransactionP cid admin (nextTransactionId s), s.now⟩]) :=
          List.countP_pos_iff.mpr
            ⟨⟨s.next_log_id, admin, cid, .add_transaction,
              .addTransactionP cid admin (nextTransactionId s), s.now⟩,
             List.mem_append_right _ (by simp), by simp⟩
        omega
      have hfindC : List.find? (fun d => d.id == cid)
          (s.customers.map (fun d =>
            if d.id == cid then { d with balance := d.balance + (-1 * |amount|) } else d)) =
          some { c with balance := c.balance + (-1 * |amount|) } := by
        rw [find?_map_of_id cid _ (balance_update_preserves_id cid (-1 * |amount|)), hcf]
        simp only [Option.map_some']
        rw [if_pos (by simpa using List.find?_some hcf)]
      unfold undoLastActionForAdmin
      rw [hlast]
      simp only [executeUndo, undoAddTransactionDb, deleteTransactionWithId, updateBalance,
        addActionLog, findCustomerById, hfindT, beq_self_eq_true, if_true, hfindC, hcancel,
        hfiltT, hfiltL, hcnt, Bool.false_or, Bool.false_eq_true, if_false]
  · refine ⟨nextTransactionId s,
      addActionLog .add_transaction cid admin (.addTransactionP cid admin (nextTransactionId s))
        { s with
          customers := s.customers.map (fun d =>
            if d.id == cid then { d with balance := d.balance + (1 * |amount|) } else d),
          transactions := s.transactions ++
            [⟨nextTransactionId s, amount, .payment, cid, admin, descr, s.now⟩] },
      ?_, ?_, hsecond⟩
    · unfold addTransactionDb updateBalance
      rw [hc]
      rfl
    · have hlast : lastLogFor admin
          (addActionLog .add_transaction cid admin (.addTransactionP cid admin (nextTransactionId s))
            { s with
              customers := s.customers.map (fun d =>
                if d.id == cid then { d with balance := d.balance + (1 * |amount|) } else d),
              transactions := s.transactions ++
                [⟨nextTransactionId s, amount, .payment, cid, admin, descr, s.now⟩] }) =
          some ⟨s.next_log_id, admin, cid, .add_transaction,
            .addTransactionP cid admin (nextTransactionId s), s.now⟩ :=
        lastLogFor_of_logs admin _ s.action_logs _ rfl (by simp) (fun l hl => hwf.1 l hl)
      have hfindT : List.find? (fun t => t.id == nextTransactionId s)
          (s.transactions ++ [⟨nextTransactionId s, amount, .payment, cid, admin, descr, s.now⟩]) =
          some ⟨nextTransactionId s, amount, .payment, cid, admin, descr, s.now⟩ := by
        rw [find?_append_of_none _ _ _
          (fun t ht => beq_eq_false_iff_ne.mpr (Nat.ne_of_lt (txnId_lt_next s t ht)))]
        simp
      have hfiltT : List.filter (fun u => !(u.id == nextTransactionId s))
          (s.transactions ++ [⟨nextTransactionId s, amount, .payment, cid, admin, descr, s.now⟩]) =
          s.transactions := by
        rw [List.filter_append]
        rw [List.filter_eq_self.mpr
          (fun t ht => by simp [beq_eq_false_iff_ne.mpr (Nat.ne_of_lt (txnId_lt_next s t ht))])]
        simp
      have hcancel := map_balance_roundtrip cid (1 * |amount|) (-1 * |amount|) (by ring) s.customers
      have hfiltL : List.filter (fun l => !(l.id == s.next_log_id))
          (s.action_logs ++ [⟨s.next_log_id, admin, cid, .add_transaction,
            .addTransactionP cid admin (nextTransactionId s), s.now⟩]) = s.action_logs := by
        rw [List.filter_append]
        rw [List.filter_eq_self.mpr
          (fun l hl => by simp [beq_eq_false_iff_ne.mpr (Nat.ne_of_lt (hwf.1 l hl))])]
        simp
      have hcnt : (List.countP (fun l => l.id == s.next_log_id)
          (s.action_logs ++ [⟨s.next_log_id, admin, cid, .add_transaction,
            .addTransactionP cid admin (nextTransactionId s), s.now⟩]) == 0) = false := by
        rw [beq_eq_false_iff_ne]
        intro h0
        have hpos : 0 < List.countP (fun l => l.id == s.next_log_id)
            (s.action_logs ++ [⟨s.next_log_id, admin, cid, .add_transaction,
              .addTransactionP cid admin (nextTransactionId s), s.now⟩]) :=
          List.countP_pos_iff.mpr
            ⟨⟨s.next_log_id, admin, cid, .add_transaction,
              .addTransactionP cid admin (nextTransactionId s), s.now⟩,
             List.mem_append_right _ (by simp), by simp⟩
        omega
      have hfindC : List.find? (fun d => d.id == cid)
          (s.customers.map (fun d =>
            if d.id == cid then { d with balance := d.balance + (1 * |amount|) } else d)) =
          some { c with balance := c.balance + (1 * |amount|) } := by
        rw [find?_map_of_id cid _ (balance_update_preserves_id cid (1 * |amount|)), hcf]
        simp only [Option.map_some']
        rw [if_pos (by simpa using List.find?_some hcf)]
      unfold undoLastActionForAdmin
      rw [hlast]
      simp only [executeUndo, undoAddTransactionDb, deleteTransactionWithId, updateBalance,
        addActionLog, findCustomerById, hfindT, beq_self_eq_true, if_true, hfindC, hcancel,
        hfiltT, hfiltL, hcnt, Bool.false_or, Bool.false_eq_true, if_false,
        (by decide : (TxType.payment == TxType.sale) = false),
        (by decide : (saleStr == paymentStr) = false)]

/-- C2 witness: a sale of 30 against the fresh customer of admin 6,
then undo; the store returns to its pre-transaction state (log counter
aside) and the now-empty log makes a second undo fail with
nothing-to-undo. -/
theorem add_transaction_undo_roundtrip_witness :
    ∃ tid s1,
      addTransactionDb true 30 saleStr "s" 1 6 fxOne = .ok (tid, s1) ∧
      undoLastActionForAdmin 6 false s1 =
        (.ok (), { fxOne with next_log_id := fxOne.next_log_id + 1 }) ∧
      (undoLastActionForAdmin 6 false { fxOne with next_log_id := fxOne.next_log_id + 1 }).1 =
        .error .nothingToUndo := by
  obtain ⟨tid, s1, h1, h2, h3⟩ :=
    add_transaction_undo_roundtrip fxOne 30 saleStr "s" 1 6 ⟨1, aliName, none, 6, 0, 100⟩
      (by decide) (by decide) (Or.inl rfl) (by decide)
  exact ⟨tid, s1, h1, h2, h3 (by decide)⟩

theorem paymentsOf_append (cid : Nat) (ts us : List Transaction) :
    paymentsOf cid (ts ++ us) = paymentsOf cid ts + paymentsOf cid us := by
  unfold paymentsOf
  rw [List.filter_append, List.map_append, List.sum_append]

theorem salesOf_append (cid : Nat) (ts us : List Transaction) :
    salesOf cid (ts ++ us) = salesOf cid ts + salesOf cid us := by
  unfold salesOf
  rw [List.filter_append, List.map_append, List.sum_append]

theorem paymentsOf_single (cid : Nat) (t : Transaction) :
    paymentsOf cid [t] =
      if (t.customer_id == cid && t.type_ == TxType.payment) = true then t.amount else 0 := by
  unfold paymentsOf
  by_cases h : (t.customer_id == cid && t.type_ == TxType.payment) = true
  · simp [h]
  · simp [h]

theorem salesOf_single (cid : Nat) (t : Transaction) :
    salesOf cid [t] =
      if (t.customer_id == cid && t.type_ == TxType.sale) = true then t.amount else 0 := by
  unfold salesOf
  by_cases h : (t.customer_id == cid && t.type_ == TxType.sale) = true
  · simp [h]
  · simp [h]

theorem paymentsOf_perm (cid : Nat) {ts us : List Transaction} (h : List.Perm ts us) :
    paymentsOf cid ts = paymentsOf cid us := by
  unfold paymentsOf
  exact ((h.filter _).map _).sum_eq

theorem salesOf_perm (cid : Nat) {ts us : List Transaction} (h : List.Perm ts us) :
    salesOf cid ts = salesOf cid us := by
  unfold salesOf
  exact ((h.filter _).map _).sum_eq

/-- With distinct ids, removing a member by its id is a permutation
away from a cons. -/
theorem perm_cons_filter_ne (ts : List Transaction) (t : Transaction)
    (hn : (ts.map (·.id)).Nodup) (ht : t ∈ ts) :
    List.Perm ts (t :: ts.filter (fun u => !(u.id == t.id))) := by
  induction ts with
  | nil => cases ht
  | cons a ts ih =>
    have hn2 : a.id ∉ ts.map (·.id) ∧ (ts.map (·.id)).Nodup := by
      rw [List.map_cons, List.nodup_cons] at hn
      exact hn
    rcases List.mem_cons.mp ht with rfl | h2
    · have hfe : ts.filter (fun u => !(u.id == t.id)) = ts := by
        refine List.filter_eq_self.mpr ?_
        intro u hu
        have : u.id ≠ t.id := by
          intro he
          exact hn2.1 (he ▸ List.mem_map_of_mem (·.id) hu)
        simp [beq_eq_false_iff_ne.mpr this]
      show List.Perm (t :: ts) (t :: List.filter _ (t :: ts))
      have hf1 : List.filter (fun u => !(u.id == t.id)) (t :: ts) =
          ts.filter (fun u => !(u.id == t.id)) := by
        simp [List.filter]
      rw [hf1, hfe]
    · have hane : a.id ≠ t.id := by
        intro he
        exact hn2.1 (he ▸ List.mem_map_of_mem (·.id) h2)
      have hf1 : List.filter (fun u => !(u.id == t.id)) (a :: ts) =
          a :: ts.filter (fun u => !(u.id == t.id)) := by
        simp [List.filter, beq_eq_false_iff_ne.mpr hane]
      rw [hf1]
      exact ((ih hn2.2 h2).cons a).trans (List.Perm.swap t a _)

/-- Inserting a fresh positive-amount transaction row while moving the
customer's balance by the matching signed delta preserves the ledger
invariant. -/
theorem ledgerInv_insert_core (s : Store)
    (hbal : BalanceInv s)
    (hpos : ∀ t ∈ s.transactions, 0 < t.amount)
    (hnodup : (s.transactions.map (·.id)).Nodup)
    (cid admin : Nat) (amount δ : Rat) (tt : TxType) (descr : String)
    (hamt : 0 < amount)
    (hδ : (tt = TxType.payment ∧ δ = amount) ∨ (tt = TxType.sale ∧ δ = -amount))
    (logs arch : List ActionLog) (nci nli : Nat) (now : Int) :
    LedgerInv ⟨s.customers.map (fun d =>
        if d.id == cid then { d with balance := d.balance + δ } else d),
      s.transactions ++ [⟨nextTransactionId s, amount, tt, cid, admin, descr, now⟩],
      logs, arch, nci, nli, now⟩ := by
  refine ⟨?_, ?_, ?_⟩
  · intro d' hd'
    obtain ⟨d0, hd0, rfl⟩ := List.mem_map.mp hd'
    by_cases hc : (d0.id == cid) = true
    · have hceq : d0.id = cid := by simpa using hc
      have hsym : (cid == d0.id) = true := by simp [hceq]
      rw [if_pos hc]
      show d0.balance + δ = paymentsOf d0.id _ - salesOf d0.id _
      rw [paymentsOf_append, salesOf_append, paymentsOf_single, salesOf_single]
      rcases hδ with ⟨rfl, rfl⟩ | ⟨rfl, rfl⟩
      · simp only [hsym, Bool.true_and]
        rw [if_pos (by decide), if_neg (by decide)]
        rw [hbal d0 hd0]
        ring
      · simp only [hsym, Bool.true_and]
        rw [if_neg (by decide), if_pos (by decide)]
        rw [hbal d0 hd0]
        ring
    · have hceq : cid ≠ d0.id := fun he => hc (by simp [he.symm])
      have hsym : (cid == d0.id) = false := beq_eq_false_iff_ne.mpr hceq
      rw [if_neg hc]
      show d0.balance = paymentsOf d0.id _ - salesOf d0.id _
      rw [paymentsOf_append, salesOf_append, paymentsOf_single, salesOf_single]
      simp only [hsym, Bool.false_and, Bool.false_eq_true, if_false, add_zero]
      exact hbal d0 hd0
  · intro t ht
    rcases List.mem_append.mp ht with h2 | h2
    · exact hpos t h2
    · rw [List.mem_singleton.mp h2]
      exact hamt
  · rw [List.map_append]
    rw [List.nodup_append]
    refine ⟨hnodup, by simp, ?_⟩
    intro x hx
    obtain ⟨t, ht, rfl⟩ := List.mem_map.mp hx
    simp only [List.map_cons, List.map_nil, List.mem_cons, List.not_mem_nil, or_false]
    exact Nat.ne_of_lt (txnId_lt_next s t ht)

/-- The store-level `add_transaction` with a positive amount and a
recognised kind preserves the ledger invariant. -/
theorem addTransactionDb_preserves (s : Store) (hinv : LedgerInv s) (amount : Rat)
    (ha : 0 < amount) (tstr : List Char) (hk : tstr = saleStr ∨ tstr = paymentStr)
    (descr : String) (cid admin : Nat) (wl : Bool) (tid : Nat) (s1 : Store)
    (hok : addTransactionDb wl amount tstr descr cid admin s = .ok (tid, s1)) :
    LedgerInv s1 := by
  obtain ⟨hbal, hpos, hnodup⟩ := hinv
  have habs : |amount| = amount := abs_of_pos ha
  unfold addTransactionDb updateBalance at hok
  rcases hk with rfl | rfl
  · simp only [(by decide : (saleStr == saleStr || saleStr == paymentStr) = true),
      Bool.not_true, Bool.false_eq_true, if_false,
      (by decide : (saleStr == paymentStr) = false),
      (by decide : (saleStr == saleStr) = true), if_true] at hok
    rcases hfc : findCustomerById cid s with _ | c
    · rw [hfc] at hok
      simp at hok
    · rw [hfc] at hok
      cases wl
      · simp only [Bool.false_eq_true, if_false, Except.ok.injEq, Prod.mk.injEq] at hok
        obtain ⟨-, rfl⟩ := hok
        simp only [habs, neg_one_mul]
        exact ledgerInv_insert_core s hbal hpos hnodup cid admin amount (-amount)
          TxType.sale descr ha (Or.inr ⟨rfl, rfl⟩) _ _ _ _ _
      · simp only [if_true, addActionLog, Except.ok.injEq, Prod.mk.injEq] at hok
        obtain ⟨-, rfl⟩ := hok
        simp only [habs, neg_one_mul]
        exact ledgerInv_insert_core s hbal hpos hnodup cid admin amount (-amount)
          TxType.sale descr ha (Or.inr ⟨rfl, rfl⟩) _ _ _ _ _
  · simp only [(by decide : (paymentStr == saleStr || paymentStr == paymentStr) = true),
      Bool.not_true, Bool.false_eq_true, if_false,
      (by decide : (paymentStr == paymentStr) = true), if_true] at hok
    rcases hfc : findCustomerById cid s with _ | c
    · rw [hfc] at hok
      simp at hok
    · rw [hfc] at hok
      cases wl
      · simp only [Bool.false_eq_true, if_false, Except.ok.injEq, Prod.mk.injEq] at hok
        obtain ⟨-, rfl⟩ := hok
        simp only [habs, one_mul]
        exact ledgerInv_insert_core s hbal hpos hnodup cid admin amount amount
          TxType.payment descr ha (Or.inl ⟨rfl, rfl⟩) _ _ _ _ _
      · simp only [if_true, addActionLog, Except.ok.injEq, Prod.mk.injEq] at hok
        obtain ⟨-, rfl⟩ := hok
        simp only [habs, one_mul]
        exact ledgerInv_insert_core s hbal hpos hnodup cid admin amount amount
          TxType.payment descr ha (Or.inl ⟨rfl, rfl⟩) _ _ _ _ _

/-- Undoing a persisted transaction (delete the row, apply the opposite
delta) preserves the ledger invariant. -/
theorem undoAddTransactionDb_preserves (s : Store) (hinv : LedgerInv s) (tid : Nat)
    (s1 : Store) (hok : undoAddTransactionDb tid s = .ok s1) : LedgerInv s1 := by
  obtain ⟨hbal, hpos, hnodup⟩ := hinv
  unfold undoAddTransactionDb deleteTransactionWithId updateBalance at hok
  rcases hf : List.find? (fun t => t.id == tid) s.transactions with _ | t
  · rw [hf] at hok
    simp at hok
  · rw [hf] at hok
    have htmem : t ∈ s.transactions := List.mem_of_find?_eq_some hf
    have htid : t.id = tid := by simpa using List.find?_some hf
    have htpos : 0 < t.amount := hpos t htmem
    have htabs : |t.amount| = t.amount := abs_of_pos htpos
    have hperm : List.Perm s.transactions
        (t :: s.transactions.filter (fun u => !(u.id == tid))) := by
      have hp := perm_cons_filter_ne s.transactions t hnodup htmem
      rwa [htid] at hp
    have hPf : ∀ x : Nat, paymentsOf x (s.transactions.filter (fun u => !(u.id == tid))) =
        paymentsOf x s.transactions -
          (if (t.customer_id == x && t.type_ == TxType.payment) = true then t.amount else 0) := by
      intro x
      have h1 := paymentsOf_perm x hperm
      have h2 : paymentsOf x (t :: s.transactions.filter (fun u => !(u.id == tid))) =
          paymentsOf x [t] + paymentsOf x (s.transactions.filter (fun u => !(u.id == tid))) :=
        paymentsOf_append x [t] _
      rw [paymentsOf_single] at h2
      rw [h2] at h1
      rw [h1]
      ring
    have hSf : ∀ x : Nat, salesOf x (s.transactions.filter (fun u => !(u.id == tid))) =
        salesOf x s.transactions -
          (if (t.customer_id == x && t.type_ == TxType.sale) = true then t.amount else 0) := by
      intro x
      have h1 := salesOf_perm x hperm
      have h2 : salesOf x (t :: s.transactions.filter (fun u => !(u.id == tid))) =
          salesOf x [t] + salesOf x (s.transactions.filter (fun u => !(u.id == tid))) :=
        salesOf_append x [t] _
      rw [salesOf_single] at h2
      rw [h2] at h1
      rw [h1]
      ring
    have hposf : ∀ u ∈ s.transactions.filter (fun u => !(u.id == tid)), 0 < u.amount :=
      fun u hu => hpos u (List.mem_filter.mp hu).1
    have hndf : ((s.transactions.filter (fun u => !(u.id == tid))).map (·.id)).Nodup :=
      List.Sublist.nodup ((List.filter_sublist _).map _) hnodup
    dsimp only [] at hok
    rw [show findCustomerById t.customer_id
        { s with transactions := s.transactions.filter (fun u => !(u.id == tid)) } =
        List.find? (fun c => c.id == t.customer_id) s.customers from rfl] at hok
    rcases hfc : List.find? (fun c => c.id == t.customer_id) s.customers with _ | c
    · rw [hfc] at hok
      rcases htt : t.type_ with _ | _ <;> rw [htt] at hok <;>
        simp [(by decide : ¬(saleStr = paymentStr))] at hok
    · rw [hfc] at hok
      rcases htt : t.type_ with _ | _
      · rw [htt] at hok
        simp only [(by decide : (TxType.sale == TxType.sale) = true), if_true,
          (by decide : (paymentStr == paymentStr) = true),
          Except.ok.injEq] at hok
        subst hok
        simp only [htabs, one_mul]
        refine ⟨?_, hposf, hndf⟩
        intro d' hd'
        obtain ⟨d0, hd0, rfl⟩ := List.mem_map.mp hd'
        by_cases hc : (d0.id == t.customer_id) = true
        · have hceq : d0.id = t.customer_id := by simpa using hc
          have hsym : (t.customer_id == d0.id) = true := by simp [hceq]
          rw [if_pos hc]
          show d0.balance + t.amount = paymentsOf d0.id _ - salesOf d0.id _
          rw [hPf, hSf, htt]
          rw [if_neg (by simp), if_pos (by simp [hsym])]
          rw [hbal d0 hd0]
          ring
        · have hsym : (t.customer_id == d0.id) = false :=
            beq_eq_false_iff_ne.mpr (fun he => hc (by simp [he.symm]))
          rw [if_neg hc]
          show d0.balance = paymentsOf d0.id _ - salesOf d0.id _
          rw [hPf, hSf]
          rw [if_neg (by simp [hsym]), if_neg (by simp [hsym])]
          rw [hbal d0 hd0]
          ring
      · rw [htt] at hok
        simp only [(by decide : (TxType.payment == TxType.sale) = false),
          Bool.false_eq_true, if_false,
          (by decide : (saleStr == paymentStr) = false),
          (by decide : (saleStr == saleStr) = true), if_true,
          Except.ok.injEq] at hok
        subst hok
        simp only [htabs, neg_one_mul]
        refine ⟨?_, hposf, hndf⟩
        intro d' hd'
        obtain ⟨d0, hd0, rfl⟩ := List.mem_map.mp hd'
        by_cases hc : (d0.id == t.customer_id) = true
        · have hceq : d0.id = t.customer_id := by simpa using hc
          have hsym : (t.customer_id == d0.id) = true := by simp [hceq]
          rw [if_pos hc]
          show d0.balance + -t.amount = paymentsOf d0.id _ - salesOf d0.id _
          rw [hPf, hSf, htt]
          rw [if_pos (by simp [hsym]), if_neg (by simp)]
          rw [hbal d0 hd0]
          ring
        · have hsym : (t.customer_id == d0.id) = false :=
            beq_eq_false_iff_ne.mpr (fun he => hc (by simp [he.symm]))
          rw [if_neg hc]
          show d0.balance = paymentsOf d0.id _ - salesOf d0.id _
          rw [hPf, hSf]
          rw [if_neg (by simp [hsym]), if_neg (by simp [hsym])]
          rw [hbal d0 hd0]
          ring

/-- Every ledger operation — a validated add-transaction request or an
add-transaction undo — preserves the ledger invariant. -/
theorem applyOp_preserves (s : Store) (h : LedgerInv s) (op : LedgerOp) :
    LedgerInv (applyOp s op) := by
  rcases op with ⟨a, k, d, cid, admin⟩ | tid
  · unfold applyOp ledgerAddTransaction
    by_cases hk : (normalizeName k == saleStr || normalizeName k == paymentStr) = true
    · simp only [hk, Bool.not_true, Bool.false_eq_true, if_false]
      by_cases ha : a ≤ 0
      · rw [if_pos ha]
        exact h
      · rw [if_neg ha]
        rcases hadd : addTransactionDb true a (normalizeName k) d cid admin s with e | ⟨tid, s1⟩
        · exact h
        · show LedgerInv s1
          refine addTransactionDb_preserves s h a (lt_of_not_le ha) (normalizeName k)
            ?_ d cid admin true tid s1 hadd
          rcases Bool.or_eq_true_iff.mp hk with h2 | h2
          · exact Or.inl (by simpa using h2)
          · exact Or.inr (by simpa using h2)
    · have hk2 : (normalizeName k == saleStr || normalizeName k == paymentStr) = false :=
        Bool.eq_false_iff.mpr hk
      simp only [hk2, Bool.not_false, if_true]
      exact h
  · unfold applyOp
    rcases hu : undoAddTransactionDb tid s with e | s1
    · simp only [hu]
      exact h
    · simp only [hu]
      exact undoAddTransactionDb_preserves s h tid s1 hu

/-- C4: starting from any store satisfying the ledger invariant (a
freshly created customer has balance 0 and no transactions, so its
creation state qualifies), after any sequence of add-transaction and
undo-add-transaction operations every customer's stored balance equals
the sum of the currently-persisted payment amounts minus the sum of the
currently-persisted sale amounts. -/
theorem balance_identity (s : Store) (h : LedgerInv s) (ops : List LedgerOp) :
    BalanceInv (applyOps s ops) := by
  suffices hs : LedgerInv (applyOps s ops) from hs.1
  induction ops generalizing s with
  | nil => exact h
  | cons op ops ih => exact ih (applyOp s op) (applyOp_preserves s h op)

/-- C4 witness: the fresh customer of admin 6 (balance 0, no
transactions), then a sale of 30, a payment of 45 and an undo of the
sale. -/
theorem balance_identity_witness :
    BalanceInv (applyOps fxOne
      [LedgerOp.addTx 30 saleStr "s" 1 6, LedgerOp.addTx 45 paymentStr "p" 1 6,
       LedgerOp.undoTx 1]) := by
  refine balance_identity fxOne ⟨?_, ?_, ?_⟩ _
  · intro c hc
    rcases List.mem_singleton.mp hc
    simp [paymentsOf, salesOf, fxOne]
  · intro t ht
    cases ht
  · simp [fxOne]

theorem pairwise_ltDue_of_sorted (L : List Customer) (hs : List.Sorted leDue L)
    (hn : (L.map (·.id)).Nodup) : List.Pairwise ltDue L := by
  have hp : List.Pairwise (fun a b : Customer => a.id ≠ b.id) L := (List.pairwise_map).mp hn
  refine (hs.and hp).imp ?_
  rintro a b ⟨hle, hne⟩
  rcases hle with h | ⟨e, hi⟩
  · exact Or.inl h
  · exact Or.inr ⟨e, lt_of_le_of_ne hi hne⟩

/-- Filtering commutes with the due-customers sort (ids distinct). -/
theorem sortDue_filter_comm (q : Customer → Bool) (base : List Customer)
    (hn : (base.map (·.id)).Nodup) :
    List.insertionSort leDue (base.filter q) = (List.insertionSort leDue base).filter q := by
  have hperm1 : List.Perm (List.insertionSort leDue (base.filter q)) (base.filter q) :=
    List.perm_insertionSort leDue _
  have hpermBase : List.Perm (List.insertionSort leDue base) base :=
    List.perm_insertionSort leDue base
  have hperm2 : List.Perm ((List.insertionSort leDue base).filter q) (base.filter q) :=
    hpermBase.filter q
  have hnodup1 : ((base.filter q).map (·.id)).Nodup :=
    List.Sublist.nodup ((List.filter_sublist base).map _) hn
  have hs1 : List.Pairwise ltDue (List.insertionSort leDue (base.filter q)) :=
    pairwise_ltDue_of_sorted _ (List.sorted_insertionSort leDue _)
      (((hperm1.map (·.id)).nodup_iff).mpr hnodup1)
  have hsBase : List.Pairwise ltDue (List.insertionSort leDue base) :=
    pairwise_ltDue_of_sorted _ (List.sorted_insertionSort leDue base)
      (((hpermBase.map (·.id)).nodup_iff).mpr hn)
  have hs2 : List.Pairwise ltDue ((List.insertionSort leDue base).filter q) :=
    hsBase.filter q
  exact List.eq_of_perm_of_sorted (hperm1.trans hperm2.symm) hs1 hs2

theorem pairwise_rel_getLast {R : Customer → Customer → Prop} :
    ∀ (P : List Customer), List.Pairwise R P → ∀ x ∈ P, ∀ (hP : P ≠ []),
      x = P.getLast hP ∨ R x (P.getLast hP) := by
  intro P
  induction P with
  | nil =>
    intro _ x hx
    cases hx
  | cons a P ih =>
    intro hp x hx hP
    rcases List.mem_cons.mp hx with rfl | h2
    · by_cases hPe : P = []
      · subst hPe
        left
        rfl
      · right
        rw [List.getLast_cons hPe]
        exact (List.pairwise_cons.mp hp).1 _ (List.getLast_mem hPe)
    · have hPe : P ≠ [] := List.ne_nil_of_mem h2
      rw [List.getLast_cons hPe]
      exact ih (List.pairwise_cons.mp hp).2 x h2 hPe

/-- Against a strictly sorted listing, the composite-cursor comparison
keyed at the last element of a prefix selects exactly the suffix. -/
theorem cursor_filter_suffix (P R : List Customer) (hp : List.Pairwise ltDue (P ++ R))
    (hP : P ≠ []) :
    (P ++ R).filter (modeCursorCmp .due_customers
      ((P.getLast hP).balance, (P.getLast hP).id)) = R := by
  obtain ⟨hpP, _, hcross⟩ := List.pairwise_append.mp hp
  have hlastmem : P.getLast hP ∈ P := List.getLast_mem hP
  rw [List.filter_append]
  have h1 : P.filter (modeCursorCmp .due_customers
      ((P.getLast hP).balance, (P.getLast hP).id)) = [] := by
    rw [List.filter_eq_nil_iff]
    intro x hx
    rcases pairwise_rel_getLast P hpP x hx hP with heq | hlt
    · rw [heq]
      simp [modeCursorCmp, lt_irrefl]
    · rcases hlt with hblt | ⟨hbeq, hilt⟩
      · simp only [modeCursorCmp, Bool.or_eq_true, not_or]
        constructor
        · simp [not_lt.mpr (le_of_lt hblt)]
        · simp [show ¬(x.balance = (P.getLast hP).balance) from fun he => absurd hblt (he ▸ lt_irrefl _)]
      · simp only [modeCursorCmp, Bool.or_eq_true, not_or]
        constructor
        · simp [hbeq, not_lt.mpr (le_refl _)]
        · simp [hbeq, not_lt.mpr (le_of_lt hilt)]
  have h2 : R.filter (modeCursorCmp .due_customers
      ((P.getLast hP).balance, (P.getLast hP).id)) = R := by
    refine List.filter_eq_self.mpr ?_
    intro y hy
    rcases hcross _ hlastmem y hy with hblt | ⟨hbeq, hilt⟩
    · simp [modeCursorCmp, hblt]
    · simp [modeCursorCmp, hbeq, hilt]
  rw [h1, h2, List.nil_append]

/-- Normal form of a due-customers page: take `limit` of the rows ahead
of the cursor, `has_more` records whether more rows remain, the next
cursor encodes the last item. -/
theorem due_page_normal (admin limit : Nat) (cursor : Option (Rat × Nat)) (s : Store)
    (hn : (s.customers.map (·.id)).Nodup) :
    fetchBalancesPage .due_customers admin limit cursor s =
      { items := (dueAvail admin cursor s).take limit,
        next_cursor := (((dueAvail admin cursor s).take limit).getLast?).map
          (fun c => (c.balance, c.id)),
        has_more := decide (limit < (dueAvail admin cursor s).length) } := by
  have hlenstep : ∀ L : List Customer,
      decide (limit < (L.take (limit + 1)).length) = decide (limit < L.length) := by
    intro L
    rw [List.length_take]
    rcases Nat.lt_or_ge limit L.length with h | h
    · rw [decide_eq_true (by omega : limit < min (limit + 1) L.length), decide_eq_true h]
    · rw [decide_eq_false (by omega : ¬limit < min (limit + 1) L.length),
        decide_eq_false (by omega : ¬limit < L.length)]
  have htake : ∀ L : List Customer, (L.take (limit + 1)).take limit = L.take limit := by
    intro L
    rw [List.take_take, min_eq_left (Nat.le_succ limit)]
  have hnodupF : ((s.customers.filter (fun c =>
      c.admin_id == admin && modeBalanceFilter .due_customers c)).map (·.id)).Nodup :=
    List.Sublist.nodup ((List.filter_sublist _).map _) hn
  cases cursor with
  | none =>
    unfold fetchBalancesPage
    dsimp only [modeOrder, dueAvail, sortedDue]
    have hm : (s.customers.filter (fun c =>
        c.admin_id == admin && modeBalanceFilter .due_customers c && true)) =
        s.customers.filter (fun c =>
          c.admin_id == admin && modeBalanceFilter .due_customers c) := by
      refine List.filter_congr ?_
      intro c _
      rw [Bool.and_true]
    rw [hm]
    simp only [Page.mk.injEq]
    refine ⟨htake _, ?_, hlenstep _⟩
    rw [htake _]
  | some k =>
    unfold fetchBalancesPage
    dsimp only [modeOrder, dueAvail, sortedDue]
    have hsplit : s.customers.filter (fun c =>
        c.admin_id == admin && modeBalanceFilter .due_customers c &&
          modeCursorCmp .due_customers k c) =
        (s.customers.filter (fun c =>
          c.admin_id == admin && modeBalanceFilter .due_customers c)).filter
            (modeCursorCmp .due_customers k) := by
      rw [List.filter_filter]
      refine List.filter_congr ?_
      intro c _
      rw [Bool.and_comm]
    rw [hsplit, sortDue_filter_comm _ _ hnodupF]
    simp only [Page.mk.injEq]
    refine ⟨htake _, ?_, hlenstep _⟩
    rw [htake _]

/-- The page walk starting behind prefix `P` returns exactly the
remaining suffix `R` of the unpaginated listing. -/
theorem collect_go (admin limit : Nat) (s : Store)
    (hn : (s.customers.map (·.id)).Nodup) (hlim : 0 < limit) :
    ∀ (fuel : Nat) (P R : List Customer) (cursor : Option (Rat × Nat)),
    P ++ R = sortedDue admin s →
    dueAvail admin cursor s = R →
    R.length ≤ fuel →
    collectDuePages admin limit s fuel cursor = R := by
  have hnodupF : ((s.customers.filter (fun c =>
      c.admin_id == admin && modeBalanceFilter .due_customers c)).map (·.id)).Nodup :=
    List.Sublist.nodup ((List.filter_sublist _).map _) hn
  have hpwL : List.Pairwise ltDue (sortedDue admin s) := by
    unfold sortedDue
    exact pairwise_ltDue_of_sorted _ (List.sorted_insertionSort leDue _)
      (((List.perm_insertionSort leDue _).map (·.id)).nodup_iff.mpr hnodupF)
  intro fuel
  induction fuel with
  | zero =>
    intro P R cursor hPR hav hlen
    have hR : R = [] := List.eq_nil_of_length_eq_zero (Nat.le_zero.mp hlen)
    rw [hR]
    rfl
  | succ fuel ih =>
    intro P R cursor hPR hav hlen
    have hpage := due_page_normal admin limit cursor s hn
    rw [hav] at hpage
    by_cases hR : limit < R.length
    · have htne : R.take limit ≠ [] := by
        intro he
        have hl := congrArg List.length he
        rw [List.length_take] at hl
        simp only [List.length_nil] at hl
        omega
      have hlast := List.getLast?_eq_getLast (R.take limit) htne
      have hP'ne : P ++ R.take limit ≠ [] := by
        intro he
        rcases List.append_eq_nil.mp he with ⟨-, h2⟩
        exact htne h2
      have hgl : (P ++ R.take limit).getLast hP'ne = (R.take limit).getLast htne :=
        List.getLast_append_of_ne_nil htne
      have hPR' : (P ++ R.take limit) ++ R.drop limit = sortedDue admin s := by
        rw [List.append_assoc, List.take_append_drop]
        exact hPR
      have hpw' : List.Pairwise ltDue ((P ++ R.take limit) ++ R.drop limit) := by
        rw [hPR']
        exact hpwL
      have hsuffix := cursor_filter_suffix (P ++ R.take limit) (R.drop limit) hpw' hP'ne
      rw [hgl] at hsuffix
      rw [hPR'] at hsuffix
      have hav' : dueAvail admin
          (some (((R.take limit).getLast htne).balance, ((R.take limit).getLast htne).id)) s =
          R.drop limit := hsuffix
      have hlen' : (R.drop limit).length ≤ fuel := by
        rw [List.length_drop]
        omega
      have hrec := ih (P ++ R.take limit) (R.drop limit) _ hPR' hav' hlen'
      show collectDuePages admin limit s (fuel + 1) cursor = R
      dsimp only [collectDuePages]
      rw [hpage]
      dsimp only []
      rw [decide_eq_true hR, hlast]
      simp only [Option.map_some', if_true]
      rw [hrec]
      exact List.take_append_drop limit R
    · have hle : R.length ≤ limit := le_of_not_lt hR
      show collectDuePages admin limit s (fuel + 1) cursor = R
      dsimp only [collectDuePages]
      rw [hpage]
      dsimp only []
      rw [decide_eq_false hR]
      simp only [Bool.false_eq_true, if_false]
      exact List.take_all_of_le hle

/-- C7: the due-customers pagination is exact — walking the pages by
feeding back each page's `(balance, id)` cursor while `has_more` holds
enumerates exactly the single unpaginated query (same filter, same
`ORDER BY balance ASC, id ASC`), with no row repeated and no row
skipped; a single page holds the first `limit` rows of what is ahead of
the cursor, and `has_more` is true exactly when more than `limit` rows
were available (the query fetches `limit + 1` rows and truncates). -/
theorem due_pagination (s : Store) (admin limit fuel : Nat)
    (hn : (s.customers.map (·.id)).Nodup) (hlim : 0 < limit)
    (hfuel : (sortedDue admin s).length ≤ fuel) :
    collectDuePages admin limit s fuel none = sortedDue admin s ∧
    (fetchBalancesPage .due_customers admin limit none s).items = (sortedDue admin s).take limit ∧
    (fetchBalancesPage .due_customers admin limit none s).has_more =
      decide (limit < (sortedDue admin s).length) := by
  refine ⟨collect_go admin limit s hn hlim fuel [] (sortedDue admin s) none rfl rfl hfuel,
    ?_, ?_⟩
  · rw [due_page_normal admin limit none s hn]
    rfl
  · rw [due_page_normal admin limit none s hn]
    rfl

/-- C7 witness: twelve qualifying customers, limit 5 — the first page
has exactly 5 items and `has_more`, and the full walk equals the
unpaginated listing. -/
theorem due_pagination_witness :
    collectDuePages 1 5 dueStore12 12 none = sortedDue 1 dueStore12 ∧
    (fetchBalancesPage .due_customers 1 5 none dueStore12).items.length = 5 ∧
    (fetchBalancesPage .due_customers 1 5 none dueStore12).has_more = true := by
  obtain ⟨h1, h2, h3⟩ := due_pagination dueStore12 1 5 12 (by decide) (by decide) (by decide)
  refine ⟨h1, ?_, ?_⟩
  · rw [h2]
    decide
  · rw [h3]
    decide

end PayTrack